import Mathlib

/-!
Shallow embedding of `CounterUp.js` (vanilla JavaScript counter animation).

The JavaScript source is translated into executable Lean definitions:
* `Config` / `defaultConfig` mirror the `defaults` object of the constructor;
* `parseValueL` mirrors `parseValue` (string parsing, separator stripping via
  a regex compiled from the separator, the numeric grammar regex, decimal
  detection);
* `formatNumberL` mirrors `formatNumber` (`toFixed`, the thousands-grouping
  regex on the integer part, prefix/suffix wrapping);
* the easing lambdas of `this.easingFunctions` are embedded over `ℝ`;
* the `animate` / `cancelAnimation` / frame-callback (`step`) machinery is
  embedded as explicit state passing over `AnimState`, with the
  `requestAnimationFrame` scheduler modelled as a pending-request table;
* the IntersectionObserver callback of `init` is embedded as `observerEvent`
  over `OrchState`, and the per-element registration loop as `initBatch`.

JavaScript numbers are modelled as exact rationals (`ℚ`); `Number.toFixed`
is modelled in its fixed-notation regime with its round-half-away-from-zero
rounding rule.
-/

namespace CounterUp

/-- Configuration record mirroring `this.defaults` / `this.settings`.
`decimals : Option ℕ` models the `null`-means-auto-detect convention; the
fields `prefixText` and `suffixText` carry the source's `prefix` and `suffix`
options (renamed because of Lean keywords). -/
structure Config where
  duration : ℚ
  easing : String
  offset : String
  once : Bool
  decimals : Option ℕ
  separator : String
  prefixText : String
  suffixText : String
deriving DecidableEq

/-- The default settings object from the constructor of `CounterUp`. -/
def defaultConfig : Config :=
  { duration := 800
    easing := "easeOutExpo"
    offset := "0%"
    once := false
    decimals := none
    separator := ","
    prefixText := ""
    suffixText := "" }

/-! ### Character and digit-string utilities -/

/-- The character class `[0-9]` of the source's numeric-grammar regex. -/
def isDig (c : Char) : Bool := 48 ≤ c.toNat && c.toNat ≤ 57

/-- Character for a decimal digit `d < 10` (code point `48 + d`). -/
def digChar (d : ℕ) : Char := Char.ofNat (48 + d)

/-- Numeric value of a big-endian digit string, with accumulator `a`
(Horner evaluation); mirrors how a decimal numeral denotes a number. -/
def valD (a : ℕ) (l : List Char) : ℕ :=
  l.foldl (fun acc c => 10 * acc + (c.toNat - 48)) a

/-- Numeric value of a big-endian digit string. -/
def valDigits (l : List Char) : ℕ := valD 0 l

/-- Fuel-driven loop producing the decimal digits of `n` (most significant
first), as JavaScript renders a nonnegative integer. -/
def natDigitsGo : ℕ → ℕ → List Char → List Char
  | 0, _, acc => acc
  | fuel + 1, n, acc =>
    if n < 10 then digChar n :: acc
    else natDigitsGo fuel (n / 10) (digChar (n % 10) :: acc)

/-- Decimal digit string of a natural number (`String(n)` for integers). -/
def natDigits (n : ℕ) : List Char := natDigitsGo (n + 1) n []

/-- Exactly `d` decimal digits of `r` (most significant first), zero-padded;
used for the fraction part emitted by `toFixed`. -/
def padDigitsGo : ℕ → ℕ → List Char → List Char
  | 0, _, acc => acc
  | d + 1, r, acc => padDigitsGo d (r / 10) (digChar (r % 10) :: acc)

/-! ### The separator regex

`parseValue` removes separators with
`cleanValue.replace(new RegExp(this.settings.separator, 'g'), '')`: the
separator string is compiled into a regular expression, so a `.` in the
separator is the any-character metacharacter, while ordinary characters
match literally.  The model below interprets exactly that fragment of the
regex language (patterns made of literal characters and the `.` wildcard),
which covers every separator exercised here. -/

/-- Try to match the pattern at the head of `s`; on success return the
remainder of `s` after the match.  A `'.'` in the pattern matches any
character, every other pattern character matches itself. -/
def patMatchAt : List Char → List Char → Option (List Char)
  | [], rest => some rest
  | _ :: _, [] => none
  | p :: ps, c :: cs => if p = '.' ∨ p = c then patMatchAt ps cs else none

/-- Fuel-driven scan removing every (leftmost, non-overlapping) match of the
pattern, as a global regex replace by the empty string does. -/
def stripGo (pat : List Char) : ℕ → List Char → List Char
  | 0, l => l
  | _ + 1, [] => []
  | fuel + 1, c :: cs =>
    match patMatchAt pat (c :: cs) with
    | some rest => stripGo pat fuel rest
    | none => c :: stripGo pat fuel cs

/-- Model of `s.replace(new RegExp(pat, 'g'), '')` for patterns made of
literal characters and the `.` wildcard. -/
def regexStripAll (pat l : List Char) : List Char :=
  if pat = [] then l else stripGo pat l.length l

/-- Model of `String.prototype.includes`: literal substring containment. -/
def containsL (pat : List Char) : List Char → Bool
  | [] => pat.isEmpty
  | c :: cs => pat.isPrefixOf (c :: cs) || containsL pat cs

/-! ### ValueParser (`parseValue`) -/

/-- Result record of a successful parse: `{number, decimals, hasComma}`. -/
structure ParsedData where
  number : ℚ
  decimals : ℕ
  hasComma : Bool
deriving DecidableEq

/-- The optional-sign step `[-+]?` of the numeric-grammar regex
`/^[-+]?[0-9]*\.?[0-9]+([eE][-+]?[0-9]+)?$/`: sign factor and remainder. -/
def signSplit (l : List Char) : ℚ × List Char :=
  match l with
  | [] => (1, [])
  | c :: cs => if c = '-' then (-1, cs) else if c = '+' then (1, cs) else (1, c :: cs)

/-- The mantissa step `[0-9]*\.?[0-9]+` of the grammar: whether a mantissa
is present, its exact value, and the remainder of the input. -/
def mantSplit (l : List Char) : Bool × ℚ × List Char :=
  let ds := l.takeWhile isDig
  match l.dropWhile isDig with
  | [] => (!ds.isEmpty, (valDigits ds : ℚ), [])
  | c :: r =>
    if c = '.' then
      (!(r.takeWhile isDig).isEmpty,
       (valDigits ds : ℚ) + (valDigits (r.takeWhile isDig) : ℚ) / 10 ^ (r.takeWhile isDig).length,
       r.dropWhile isDig)
    else (!ds.isEmpty, (valDigits ds : ℚ), c :: r)

/-- The exponent step `([eE][-+]?[0-9]+)?$` of the grammar: whether the
remainder is a well-formed (possibly absent) exponent, and its value. -/
def expSplit (l : List Char) : Bool × ℤ :=
  match l with
  | [] => (true, 0)
  | c :: r =>
    if c = 'e' ∨ c = 'E' then
      match r with
      | [] => (false, 0)
      | c2 :: cs =>
        if c2 = '-' then
          (!(cs.takeWhile isDig).isEmpty && (cs.dropWhile isDig).isEmpty,
           -(valDigits (cs.takeWhile isDig) : ℤ))
        else if c2 = '+' then
          (!(cs.takeWhile isDig).isEmpty && (cs.dropWhile isDig).isEmpty,
           (valDigits (cs.takeWhile isDig) : ℤ))
        else
          (!((c2 :: cs).takeWhile isDig).isEmpty && ((c2 :: cs).dropWhile isDig).isEmpty,
           (valDigits ((c2 :: cs).takeWhile isDig) : ℤ))
    else (false, 0)

/-- The numeric-grammar regex
`/^[-+]?[0-9]*\.?[0-9]+([eE][-+]?[0-9]+)?$/` as a decision procedure:
optional sign, optional integer digits, optional dot, mandatory digits,
optional anchored exponent. -/
def numberGrammar (l : List Char) : Bool :=
  (mantSplit (signSplit l).2).1 && (expSplit (mantSplit (signSplit l).2).2.2).1

/-- Exact value of a decimal numeral accepted by `numberGrammar`
(`parseFloat` on grammar-valid strings, with JavaScript doubles modelled as
exact rationals): sign times mantissa times ten to the exponent. -/
def parseDecimal (l : List Char) : ℚ :=
  (signSplit l).1 * (mantSplit (signSplit l).2).2.1 *
    10 ^ (expSplit (mantSplit (signSplit l).2).2.2).2

/-- The decimal-place auto-detection `cleanValue.match(/\.([0-9]+)/)`:
length of the digit run after the first dot that is followed by at least
one digit (0 when there is no such dot). -/
def detectDecimals : List Char → ℕ
  | [] => 0
  | c :: r =>
    if c = '.' ∧ !(r.takeWhile isDig).isEmpty then (r.takeWhile isDig).length
    else detectDecimals r

/-- `parseValue` on the character list of the input string, mirroring the
source line by line: empty-string rejection, literal `includes` check for
the separator, prefix/suffix stripping, regex separator removal, grammar
validation, `parseFloat`, decimal detection with the `settings.decimals`
override. -/
def parseValueL (cfg : Config) (value : List Char) : Option ParsedData :=
  if value = [] then none
  else
    let hasComma := containsL cfg.separator.data value
    let c1 :=
      if cfg.prefixText.data ≠ [] ∧ cfg.prefixText.data.isPrefixOf value then
        value.drop cfg.prefixText.data.length
      else value
    let c2 :=
      if cfg.suffixText.data ≠ [] ∧ cfg.suffixText.data.reverse.isPrefixOf c1.reverse then
        c1.take (c1.length - cfg.suffixText.data.length)
      else c1
    let clean := regexStripAll cfg.separator.data c2
    if numberGrammar clean then
      some
        { number := parseDecimal clean
          decimals := match cfg.decimals with
            | some d => d
            | none => detectDecimals clean
          hasComma := hasComma }
    else none

/-- `parseValue` at the string boundary. -/
def parseValue (cfg : Config) (value : String) : Option ParsedData :=
  parseValueL cfg value.data

/-- Literal matching step: like `patMatchAt` but every pattern character,
including `'.'`, matches only itself. -/
def litMatchAt : List Char → List Char → Option (List Char)
  | [], rest => some rest
  | _ :: _, [] => none
  | p :: ps, c :: cs => if p = c then litMatchAt ps cs else none

/-- Literal analogue of `stripGo`. -/
def litStripGo (pat : List Char) : ℕ → List Char → List Char
  | 0, l => l
  | _ + 1, [] => []
  | fuel + 1, c :: cs =>
    match litMatchAt pat (c :: cs) with
    | some rest => litStripGo pat fuel rest
    | none => c :: litStripGo pat fuel cs

/-- Removal of the literal occurrences of `pat` only (the comparison
behaviour named by the spec claim, not what the source does). -/
def literalStripAll (pat l : List Char) : List Char :=
  if pat = [] then l else litStripGo pat l.length l

/-- Variant of `parseValueL` from the claim's wording: identical except
that separators are removed only at their literal occurrences instead of
compiling the separator into a regular expression. -/
def parseValueLiteralL (cfg : Config) (value : List Char) : Option ParsedData :=
  if value = [] then none
  else
    let hasComma := containsL cfg.separator.data value
    let c1 :=
      if cfg.prefixText.data ≠ [] ∧ cfg.prefixText.data.isPrefixOf value then
        value.drop cfg.prefixText.data.length
      else value
    let c2 :=
      if cfg.suffixText.data ≠ [] ∧ cfg.suffixText.data.reverse.isPrefixOf c1.reverse then
        c1.take (c1.length - cfg.suffixText.data.length)
      else c1
    let clean := literalStripAll cfg.separator.data c2
    if numberGrammar clean then
      some
        { number := parseDecimal clean
          decimals := match cfg.decimals with
            | some d => d
            | none => detectDecimals clean
          hasComma := hasComma }
    else none

/-- The literal-strip comparison parser at the string boundary. -/
def parseValueLiteral (cfg : Config) (value : String) : Option ParsedData :=
  parseValueLiteralL cfg value.data

/-! ### NumberFormatter (`formatNumber`) -/

/-- The scaled integer chosen by `Number.prototype.toFixed`: the integer
closest to `|n| * 10^d`, ties resolved upward (JavaScript splits off the
sign first, so this is round-half-away-from-zero overall). -/
def roundSc (n : ℚ) (d : ℕ) : ℕ := (⌊|n| * 10 ^ d + 1 / 2⌋).toNat

/-- `n.toFixed(d)` in its fixed-notation regime: optional `'-'` sign, the
integer digits, and (for `d > 0`) a dot followed by exactly `d` fraction
digits.  The rounding here acts on the exact rational argument, while the
source rounds an IEEE-754 double; the two agree whenever the scaled value
is not within the double's representation error of a half-integer tie, and
every concrete value this development evaluates `toFixedL` at is tie-free
in that sense. -/
def toFixedL (n : ℚ) (d : ℕ) : List Char :=
  let m := roundSc n d
  let s : List Char := if n < 0 then ['-'] else []
  if d = 0 then s ++ natDigits m
  else s ++ natDigits (m / 10 ^ d) ++ '.' :: padDigitsGo d (m % 10 ^ d) []

/-- The grouping regex `\B(?=(\d{3})+(?!\d))` on an all-digit string:
insert the separator before every position (other than the start) from
which the remaining digit count is a positive multiple of three. -/
def groupGo (sep : List Char) : List Char → List Char
  | [] => []
  | c :: cs =>
    c :: (if cs.length % 3 = 0 ∧ cs ≠ [] then sep ++ groupGo sep cs else groupGo sep cs)

/-- Grouping applied to `parts[0]` of the `toFixed` output: a leading `'-'`
sits on a word boundary so no separator lands after it. -/
def groupIntPart (sep : List Char) : List Char → List Char
  | [] => []
  | c :: cs => if c = '-' then c :: groupGo sep cs else groupGo sep (c :: cs)

/-- Character predicate splitting the `toFixed` output at its dot
(`formattedNumber.split('.')`). -/
def notDot (c : Char) : Bool := decide (c ≠ '.')

/-- `formatNumber` on character lists: `toFixed`, thousands grouping of the
integer part when `hasComma`, then `prefix + body + suffix`. -/
def formatNumberL (cfg : Config) (n : ℚ) (d : ℕ) (hasComma : Bool) : List Char :=
  let f := toFixedL n d
  let f2 :=
    if hasComma then groupIntPart cfg.separator.data (f.takeWhile notDot) ++ f.dropWhile notDot
    else f
  cfg.prefixText.data ++ f2 ++ cfg.suffixText.data

/-- `formatNumber` at the string boundary. -/
def formatNumber (cfg : Config) (n : ℚ) (d : ℕ) (hasComma : Bool) : String :=
  ⟨formatNumberL cfg n d hasComma⟩

/-- The rounded value denoted by the `toFixed` output: sign times the scaled
integer divided back by `10^d` (round-half-away-from-zero at `d` fractional
digits). -/
def roundToDec (d : ℕ) (n : ℚ) : ℚ :=
  (if n < 0 then (-1 : ℚ) else 1) * ((roundSc n d : ℚ) / 10 ^ d)

/-! ### EasingLibrary (`this.easingFunctions`) -/

/-- Easing `easeLinear: t => t`. -/
def easeLinear (t : ℝ) : ℝ := t

/-- Easing `easeInQuad: t => t * t`. -/
def easeInQuad (t : ℝ) : ℝ := t * t

/-- Easing `easeOutQuad: t => t * (2 - t)`. -/
def easeOutQuad (t : ℝ) : ℝ := t * (2 - t)

/-- Easing `easeInOutQuad: t => t < 0.5 ? 2*t*t : -1 + (4 - 2*t)*t`. -/
noncomputable def easeInOutQuad (t : ℝ) : ℝ :=
  if t < 0.5 then 2 * t * t else -1 + (4 - 2 * t) * t

/-- Easing `easeInCubic: t => t * t * t`. -/
def easeInCubic (t : ℝ) : ℝ := t * t * t

/-- Easing `easeOutCubic: t => (--t) * t * t + 1` (the decrement makes every
occurrence of `t` read `t - 1`). -/
def easeOutCubic (t : ℝ) : ℝ := (t - 1) * (t - 1) * (t - 1) + 1

/-- Easing `easeInOutCubic: t => t < 0.5 ? 4*t*t*t : (t-1)*(2*t-2)*(2*t-2) + 1`. -/
noncomputable def easeInOutCubic (t : ℝ) : ℝ :=
  if t < 0.5 then 4 * t * t * t else (t - 1) * (2 * t - 2) * (2 * t - 2) + 1

/-- Easing `easeOutExpo: t => t === 1 ? 1 : 1 - Math.pow(2, -10 * t)`. -/
noncomputable def easeOutExpo (t : ℝ) : ℝ :=
  if t = 1 then 1 else 1 - Real.rpow 2 (-10 * t)

/-- The key lookup `this.easingFunctions[name]` on the easing object. -/
noncomputable def easingFunctions (name : String) : Option (ℝ → ℝ) :=
  match name with
  | "easeLinear" => some easeLinear
  | "easeInQuad" => some easeInQuad
  | "easeOutQuad" => some easeOutQuad
  | "easeInOutQuad" => some easeInOutQuad
  | "easeInCubic" => some easeInCubic
  | "easeOutCubic" => some easeOutCubic
  | "easeInOutCubic" => some easeInOutCubic
  | "easeOutExpo" => some easeOutExpo
  | _ => none

/-- `this.easingFunctions[this.settings.easing] || this.easingFunctions.easeOutExpo`
(line 231): undefined lookup falls back to `easeOutExpo`. -/
noncomputable def resolveEasing (name : String) : ℝ → ℝ :=
  (easingFunctions name).getD easeOutExpo

/-! ### Association-list maps

`this.animations` is a JavaScript `Map`; the pending
`requestAnimationFrame` requests and the element `innerText` contents are
likewise modelled as key-value tables. -/

/-- First value bound to key `k`. -/
def lookupL {α : Type} : List (ℕ × α) → ℕ → Option α
  | [], _ => none
  | (k, v) :: r, e => if k = e then some v else lookupL r e

/-- Remove every binding of key `k` (`Map.delete`). -/
def eraseKey {α : Type} (k : ℕ) (l : List (ℕ × α)) : List (ℕ × α) :=
  l.filter (fun p => p.1 ≠ k)

/-- Bind key `k` to `v`, replacing any previous binding (`Map.set`). -/
def setKey {α : Type} (k : ℕ) (v : α) (l : List (ℕ × α)) : List (ℕ × α) :=
  (k, v) :: eraseKey k l

/-! ### AnimationController (`animate`, `cancelAnimation`, `step`) -/

/-- The data captured by the `step` closure created in `animate`: the
element, the dataset values read at start, and the lazily initialised
`startTime` (`null` until the first delivered frame). -/
structure FrameData where
  elemId : ℕ
  targetValue : ℚ
  decimals : ℕ
  hasComma : Bool
  startTime : Option ℚ
deriving DecidableEq

/-- Machine state: the scheduler's token counter and pending-request table
(`requestAnimationFrame` / `cancelAnimationFrame`), the `this.animations`
map from element to its current request token, and each element's rendered
`innerText`. -/
structure AnimState where
  nextId : ℕ
  pending : List (ℕ × FrameData)
  animations : List (ℕ × ℕ)
  display : List (ℕ × String)
deriving DecidableEq

/-- The empty machine: no pending requests, no animations, nothing rendered. -/
def initAnim : AnimState := ⟨0, [], [], []⟩

/-- `cancelAnimation(element)`: if the animations map has a token for the
element, revoke that scheduler request and delete the map entry. -/
def cancelAnimation (e : ℕ) (σ : AnimState) : AnimState :=
  match lookupL σ.animations e with
  | some tok =>
    { σ with
        pending := eraseKey tok σ.pending
        animations := eraseKey e σ.animations }
  | none => σ

/-- `animate(element)`: cancel any existing animation first, read the
dataset values (the registry — a missing/NaN read warns and returns), then
request the first frame and record its token in the animations map. -/
def animate (reg : List (ℕ × ParsedData)) (e : ℕ) (σ : AnimState) : AnimState :=
  let σ1 := cancelAnimation e σ
  match lookupL reg e with
  | none => σ1
  | some p =>
    { nextId := σ1.nextId + 1
      pending := (σ1.nextId, ⟨e, p.number, p.decimals, p.hasComma, none⟩) :: σ1.pending
      animations := setKey e σ1.nextId σ1.animations
      display := σ1.display }

/-- The body of the `step(timestamp)` closure, exactly as written: set
`startTime` on the first frame, compute the clamped progress, ease it,
interpolate from `startValue = 0`, render the interpolated value, then
either request the next frame or render the exact target and release the
session.  Nothing in the body consults the animations map before rendering. -/
def stepRun (cfg : Config) (ease : ℚ → ℚ) (fd : FrameData) (ts : ℚ) (σ : AnimState) :
    AnimState :=
  let startTime := fd.startTime.getD ts
  let progress := min 1 ((ts - startTime) / cfg.duration)
  let eased := ease progress
  let current := 0 + eased * (fd.targetValue - 0)
  let σ1 :=
    { σ with display := setKey fd.elemId (formatNumber cfg current fd.decimals fd.hasComma) σ.display }
  if progress < 1 then
    { σ1 with
        nextId := σ1.nextId + 1
        pending := (σ1.nextId, { fd with startTime := some startTime }) :: σ1.pending
        animations := setKey fd.elemId σ1.nextId σ1.animations }
  else
    { σ1 with
        display := setKey fd.elemId
          (formatNumber cfg fd.targetValue fd.decimals fd.hasComma) σ1.display
        animations := eraseKey fd.elemId σ1.animations }

/-- Normal frame delivery by the scheduler: a still-pending request is
removed from the queue and its `step` closure runs with the frame
timestamp; a revoked token delivers nothing. -/
def fireFrame (cfg : Config) (ease : ℚ → ℚ) (tok : ℕ) (ts : ℚ) (σ : AnimState) :
    AnimState :=
  match lookupL σ.pending tok with
  | none => σ
  | some fd => stepRun cfg ease fd ts { σ with pending := eraseKey tok σ.pending }

/-- `replay()`: for every element, reset `innerText` to `'0'` and then call
`animate`. -/
def replay (reg : List (ℕ × ParsedData)) (es : List ℕ) (σ : AnimState) : AnimState :=
  es.foldl (fun σ e => animate reg e { σ with display := setKey e "0" σ.display }) σ

/-- Driver events for the animation machine: a call to `animate`, a call to
`cancelAnimation`, or a scheduler frame delivery. -/
inductive Op where
  | anim (e : ℕ)
  | cancel (e : ℕ)
  | frame (tok : ℕ) (ts : ℚ)

/-- Apply one driver event. -/
def applyOp (cfg : Config) (ease : ℚ → ℚ) (reg : List (ℕ × ParsedData))
    (σ : AnimState) : Op → AnimState
  | Op.anim e => animate reg e σ
  | Op.cancel e => cancelAnimation e σ
  | Op.frame tok ts => fireFrame cfg ease tok ts σ

/-- Run a sequence of driver events from a start state. -/
def runOps (cfg : Config) (ease : ℚ → ℚ) (reg : List (ℕ × ParsedData))
    (ops : List Op) (σ : AnimState) : AnimState :=
  ops.foldl (applyOp cfg ease reg) σ

/-- Number of pending scheduler requests belonging to element `e`. -/
def pendingCount (σ : AnimState) (e : ℕ) : ℕ :=
  (σ.pending.filter (fun p => p.2.elemId = e)).length

/-! ### Orchestrator (`init`'s IntersectionObserver callback) -/

/-- Orchestrator state: the animation machine plus the
`this.elementState` visibility map and the set of elements whose observer
is still connected. -/
structure OrchState where
  anim : AnimState
  visible : List (ℕ × Bool)
  subscribed : List ℕ
deriving DecidableEq

/-- The IntersectionObserver callback body (lines 99–124) for one entry of
element `e` with intersection flag `inter`, delivered only while the
element's observer is connected: update the visibility map; on
becoming visible call `animate` and, in `once` mode, disconnect the
observer; on leaving visibility call `cancelAnimation` and, when not in
`once` mode, write the literal text `'0'`. -/
def observerEvent (cfg : Config) (reg : List (ℕ × ParsedData)) (e : ℕ)
    (inter : Bool) (σ : OrchState) : OrchState :=
  if e ∈ σ.subscribed then
    let wasVisible := (lookupL σ.visible e).getD false
    let σv := { σ with visible := setKey e inter σ.visible }
    if inter then
      let σa := { σv with anim := animate reg e σv.anim }
      if cfg.once then { σa with subscribed := σa.subscribed.filter (· ≠ e) } else σa
    else if wasVisible then
      let σc := { σv with anim := cancelAnimation e σv.anim }
      if cfg.once then σc
      else { σc with anim := { σc.anim with display := setKey e "0" σc.anim.display } }
    else σv
  else σ

/-- Well-formedness of the machine state: every pending token and every
token recorded in the animations map is below the scheduler's counter,
every pending request's token is exactly the token the animations map holds
for its element, and pending tokens are pairwise distinct. -/
def Inv (σ : AnimState) : Prop :=
  (∀ p ∈ σ.pending, p.1 < σ.nextId) ∧
  (∀ q ∈ σ.animations, q.2 < σ.nextId) ∧
  (∀ p ∈ σ.pending, lookupL σ.animations p.2.elemId = some p.1) ∧
  (σ.pending.map Prod.fst).Nodup

/-! ### Registration (`init`, lines 72–95) -/

/-- Whitespace trimmed by `String.prototype.trim` (common characters). -/
def isWS (c : Char) : Bool := c = ' ' || c = '\t' || c = '\n' || c = '\r'

/-- `element.innerText.trim()`. -/
def trimL (l : List Char) : List Char :=
  ((l.dropWhile isWS).reverse.dropWhile isWS).reverse

/-- Outcome of registering one element: skipped with a recorded
`console.warn` message, or registered with its parsed dataset values. -/
inductive RegOutcome where
  | skipped (warning : String)
  | registered (p : ParsedData)
deriving DecidableEq

/-- The per-element body of the `init` registration loop: trim the text,
skip (with a warning) when it is empty or fails to parse, otherwise store
the parsed data. -/
def registerOne (cfg : Config) (raw : String) : RegOutcome :=
  let text : List Char := trimL raw.data
  if text = [] then RegOutcome.skipped "CounterUp: Element is empty:"
  else
    match parseValueL cfg text with
    | none => RegOutcome.skipped ("CounterUp: Could not parse a valid number from: " ++ ⟨text⟩)
    | some p => RegOutcome.registered p

/-- `this.elements.forEach(...)`: every element is processed, each
independently of the others. -/
def initBatch (cfg : Config) : List String → List RegOutcome
  | [] => []
  | e :: rest => registerOne cfg e :: initBatch cfg rest

/-! ### Digit-string lemmas -/

lemma valD_nil (a : ℕ) : valD a [] = a := rfl

lemma valD_cons (a : ℕ) (c : Char) (l : List Char) :
    valD a (c :: l) = valD (10 * a + (c.toNat - 48)) l := rfl

lemma valD_append (a : ℕ) (l₁ l₂ : List Char) :
    valD a (l₁ ++ l₂) = valD (valD a l₁) l₂ :=
  List.foldl_append _ _ _ _

lemma digChar_toNat {d : ℕ} (h : d < 10) : (digChar d).toNat = 48 + d := by
  interval_cases d <;> rfl

lemma isDig_digChar {d : ℕ} (h : d < 10) : isDig (digChar d) = true := by
  interval_cases d <;> rfl

lemma digChar_ne_dot {d : ℕ} (h : d < 10) : digChar d ≠ '.' := by
  interval_cases d <;> decide

lemma digChar_ne_dash {d : ℕ} (h : d < 10) : digChar d ≠ '-' ∧ digChar d ≠ '+' := by
  interval_cases d <;> exact ⟨by decide, by decide⟩

lemma isDig_ne_special {c : Char} (h : isDig c = true) :
    c ≠ '.' ∧ c ≠ '-' ∧ c ≠ '+' ∧ c ≠ 'e' ∧ c ≠ 'E' := by
  simp only [isDig, Bool.and_eq_true, decide_eq_true_eq] at h
  refine ⟨?_, ?_, ?_, ?_, ?_⟩ <;> rintro rfl <;> simp_all

lemma natDigitsGo_spec :
    ∀ n f acc, n < 10 ^ (f + 1) → natDigitsGo (f + 1) n acc = natDigits n ++ acc := by
  intro n
  induction n using Nat.strong_induction_on with
  | _ n ih =>
    intro f acc h
    by_cases hn : n < 10
    · simp [natDigitsGo, natDigits, hn]
    · have h10 : 10 ≤ n := le_of_not_lt hn
      have hf : 1 ≤ f := by
        by_contra hf
        interval_cases f
        · omega
      have hdiv : n / 10 < n := Nat.div_lt_self (by omega) (by norm_num)
      obtain ⟨f', rfl⟩ : ∃ f', f = f' + 1 := ⟨f - 1, by omega⟩
      have hlt : n / 10 < 10 ^ (f' + 1) := by
        rw [Nat.div_lt_iff_lt_mul (by norm_num)]
        calc n < 10 ^ (f' + 1 + 1) := h
        _ = 10 ^ (f' + 1) * 10 := by ring
      have lhs : natDigitsGo (f' + 1 + 1) n acc
          = natDigits (n / 10) ++ (digChar (n % 10) :: acc) := by
        rw [show natDigitsGo (f' + 1 + 1) n acc
            = natDigitsGo (f' + 1) (n / 10) (digChar (n % 10) :: acc) by
          simp [natDigitsGo, hn]]
        exact ih _ hdiv _ _ hlt
      have hfuel : ∃ m, n = m + 1 := ⟨n - 1, by omega⟩
      obtain ⟨m, hm⟩ := hfuel
      have hlt2 : n / 10 < 10 ^ (m + 1) := by
        calc n / 10 < n := hdiv
        _ = m + 1 := hm
        _ < 10 ^ (m + 1) := Nat.lt_pow_self (by norm_num) _
      have rhs : natDigits n = natDigits (n / 10) ++ [digChar (n % 10)] := by
        rw [natDigits, show natDigitsGo (n + 1) n [] =
            natDigitsGo n (n / 10) [digChar (n % 10)] by simp [natDigitsGo, hn]]
        calc natDigitsGo n (n / 10) [digChar (n % 10)]
            = natDigitsGo (m + 1) (n / 10) [digChar (n % 10)] := by rw [← hm]
          _ = natDigits (n / 10) ++ [digChar (n % 10)] := ih _ hdiv _ _ hlt2
      rw [lhs, rhs, List.append_assoc]
      rfl

lemma natDigits_lt {n : ℕ} (h : n < 10) : natDigits n = [digChar n] := by
  simp [natDigits, natDigitsGo, h]

lemma natDigits_ge {n : ℕ} (h : 10 ≤ n) :
    natDigits n = natDigits (n / 10) ++ [digChar (n % 10)] := by
  obtain ⟨m, rfl⟩ : ∃ m, n = m + 1 := ⟨n - 1, by omega⟩
  rw [natDigits, show natDigitsGo (m + 1 + 1) (m + 1) []
      = natDigitsGo (m + 1) ((m + 1) / 10) [digChar ((m + 1) % 10)] by
    simp [natDigitsGo, Nat.not_lt.2 h]]
  obtain ⟨f, rfl⟩ : ∃ f, m = f + 1 := ⟨m - 1, by omega⟩
  exact natDigitsGo_spec _ _ _
    (lt_of_lt_of_le (Nat.div_lt_self (by omega) (by norm_num))
      (le_of_lt (Nat.lt_pow_self (by norm_num) _)))

lemma valDigits_natDigits (n : ℕ) : valDigits (natDigits n) = n := by
  induction n using Nat.strong_induction_on with
  | _ n ih =>
    by_cases hn : n < 10
    · rw [natDigits_lt hn]
      simp [valDigits, valD, digChar_toNat hn]
    · have h10 : 10 ≤ n := le_of_not_lt hn
      rw [natDigits_ge h10, valDigits, valD_append]
      have := ih (n / 10) (Nat.div_lt_self (by omega) (by norm_num))
      rw [valDigits] at this
      rw [this, valD_cons, valD_nil, digChar_toNat (Nat.mod_lt _ (by norm_num))]
      omega

lemma natDigits_digits (n : ℕ) : ∀ c ∈ natDigits n, isDig c = true := by
  induction n using Nat.strong_induction_on with
  | _ n ih =>
    by_cases hn : n < 10
    · rw [natDigits_lt hn]
      simpa using isDig_digChar hn
    · rw [natDigits_ge (le_of_not_lt hn)]
      intro c hc
      rcases List.mem_append.1 hc with h | h
      · exact ih (n / 10) (Nat.div_lt_self (by omega) (by norm_num)) _ h
      · simp only [List.mem_singleton] at h
        subst h
        exact isDig_digChar (Nat.mod_lt _ (by norm_num))

lemma natDigits_ne_nil (n : ℕ) : natDigits n ≠ [] := by
  by_cases hn : n < 10
  · rw [natDigits_lt hn]; simp
  · rw [natDigits_ge (le_of_not_lt hn)]; simp

lemma padDigitsGo_digits (d : ℕ) :
    ∀ r acc, (∀ c ∈ acc, isDig c = true) → ∀ c ∈ padDigitsGo d r acc, isDig c = true := by
  induction d with
  | zero => intro r acc hacc; exact hacc
  | succ d ih =>
    intro r acc hacc
    refine ih _ _ ?_
    intro c hc
    rcases List.mem_cons.1 hc with h | h
    · subst h; exact isDig_digChar (Nat.mod_lt _ (by norm_num))
    · exact hacc _ h

lemma padDigitsGo_length (d : ℕ) :
    ∀ r acc, (padDigitsGo d r acc).length = d + acc.length := by
  induction d with
  | zero => intro r acc; simp [padDigitsGo]
  | succ d ih =>
    intro r acc
    rw [padDigitsGo, ih]
    simp
    omega

lemma padDigitsGo_val (d : ℕ) :
    ∀ r acc a, r < 10 ^ d → valD a (padDigitsGo d r acc) = valD (a * 10 ^ d + r) acc := by
  induction d with
  | zero =>
    intro r acc a hr
    interval_cases r
    simp [padDigitsGo]
  | succ d ih =>
    intro r acc a hr
    rw [padDigitsGo, ih _ _ _ (by
      rw [Nat.div_lt_iff_lt_mul (by norm_num)]
      calc r < 10 ^ (d + 1) := hr
      _ = 10 ^ d * 10 := by ring)]
    rw [valD_cons, digChar_toNat (Nat.mod_lt _ (by norm_num))]
    congr 1
    have : 10 * (a * 10 ^ d + r / 10) + (48 + r % 10 - 48) = a * 10 ^ (d + 1) + r := by
      have := Nat.div_add_mod r 10
      ring_nf
      omega
    omega

/-! ### Scanning lemmas -/

lemma takeWhile_all {p : Char → Bool} :
    ∀ {l : List Char}, (∀ c ∈ l, p c = true) → l.takeWhile p = l ∧ l.dropWhile p = [] := by
  intro l
  induction l with
  | nil => intro; simp
  | cons c cs ih =>
    intro h
    have hc : p c = true := h c (List.mem_cons_self _ _)
    have := ih fun x hx => h x (List.mem_cons_of_mem _ hx)
    simp [List.takeWhile_cons, List.dropWhile_cons, hc, this.1, this.2]

lemma takeWhile_stop {p : Char → Bool} {x : Char} (hx : p x = false) :
    ∀ {A : List Char} (B : List Char), (∀ c ∈ A, p c = true) →
      (A ++ x :: B).takeWhile p = A ∧ (A ++ x :: B).dropWhile p = x :: B := by
  intro A
  induction A with
  | nil => intro B _; simp [List.takeWhile_cons, List.dropWhile_cons, hx]
  | cons c cs ih =>
    intro B h
    have hc : p c = true := h c (List.mem_cons_self _ _)
    have := ih B fun y hy => h y (List.mem_cons_of_mem _ hy)
    simp [List.takeWhile_cons, List.dropWhile_cons, hc, this.1, this.2]

/-! ### Structure of the `toFixed` output -/

lemma signSplit_digits {l : List Char} (h : ∀ c ∈ l, isDig c = true) :
    signSplit l = (1, l) := by
  cases l with
  | nil => rfl
  | cons c cs =>
    have hc := isDig_ne_special (h c (List.mem_cons_self _ _))
    simp [signSplit, hc.2.1, hc.2.2.1]

lemma mantSplit_digits {l : List Char} (h : ∀ c ∈ l, isDig c = true) (hne : l ≠ []) :
    mantSplit l = (true, (valDigits l : ℚ), []) := by
  obtain ⟨htw, hdw⟩ := takeWhile_all h
  simp [mantSplit, htw, hdw, List.isEmpty_eq_true, hne]

lemma expSplit_nil : expSplit [] = (true, 0) := rfl

lemma mantSplit_dot {A B : List Char} (hA : ∀ c ∈ A, isDig c = true)
    (hB : ∀ c ∈ B, isDig c = true) (hne : B ≠ []) :
    mantSplit (A ++ '.' :: B) =
      (true, (valDigits A : ℚ) + (valDigits B : ℚ) / 10 ^ B.length, []) := by
  obtain ⟨htw, hdw⟩ := takeWhile_stop (p := isDig) (x := '.') (by decide) B hA
  obtain ⟨htwB, hdwB⟩ := takeWhile_all hB
  simp [mantSplit, htw, hdw, htwB, hdwB, List.isEmpty_eq_true, hne]

lemma toFixedL_d0 (n : ℚ) :
    toFixedL n 0 = (if n < 0 then ['-'] else []) ++ natDigits (roundSc n 0) := by
  simp [toFixedL]

lemma toFixedL_dpos (n : ℚ) {d : ℕ} (hd : d ≠ 0) :
    toFixedL n d =
      (if n < 0 then ['-'] else []) ++
        (natDigits (roundSc n d / 10 ^ d) ++ '.' :: padDigitsGo d (roundSc n d % 10 ^ d) []) := by
  simp [toFixedL, hd]

lemma parseDecimal_signed {l : List Char} (neg : Bool)
    (h : ∀ c ∈ l, isDig c = true) (hne : l ≠ []) :
    parseDecimal ((if neg then ['-'] else []) ++ l) =
      (if neg then (-1 : ℚ) else 1) * (valDigits l : ℚ) := by
  cases neg with
  | false =>
    simp [parseDecimal, signSplit_digits h, mantSplit_digits h hne, expSplit_nil]
  | true =>
    have hs : signSplit ('-' :: l) = (-1, l) := by simp [signSplit]
    simp [parseDecimal, hs, mantSplit_digits h hne, expSplit_nil]

lemma parseDecimal_signed_dot {A B : List Char} (neg : Bool)
    (hA : ∀ c ∈ A, isDig c = true) (hB : ∀ c ∈ B, isDig c = true)
    (hAne : A ≠ []) (hBne : B ≠ []) :
    parseDecimal ((if neg then ['-'] else []) ++ (A ++ '.' :: B)) =
      (if neg then (-1 : ℚ) else 1) *
        ((valDigits A : ℚ) + (valDigits B : ℚ) / 10 ^ B.length) := by
  have hsd : signSplit (A ++ '.' :: B) = (1, A ++ '.' :: B) := by
    cases A with
    | nil => exact absurd rfl hAne
    | cons c cs =>
      have hc := isDig_ne_special (hA c (List.mem_cons_self _ _))
      simp [signSplit, hc.2.1, hc.2.2.1]
  cases neg with
  | false =>
    simp [parseDecimal, hsd, mantSplit_dot hA hB hBne, expSplit_nil]
  | true =>
    have hs : signSplit ('-' :: (A ++ '.' :: B)) = (-1, A ++ '.' :: B) := by
      simp [signSplit]
    simp [parseDecimal, hs, mantSplit_dot hA hB hBne, expSplit_nil]

lemma grammar_signed {l : List Char} (neg : Bool)
    (h : ∀ c ∈ l, isDig c = true) (hne : l ≠ []) :
    numberGrammar ((if neg then ['-'] else []) ++ l) = true := by
  cases neg with
  | false =>
    simp [numberGrammar, signSplit_digits h, mantSplit_digits h hne, expSplit_nil]
  | true =>
    have hs : signSplit ('-' :: l) = (-1, l) := by simp [signSplit]
    simp [numberGrammar, hs, mantSplit_digits h hne, expSplit_nil]

lemma grammar_signed_dot {A B : List Char} (neg : Bool)
    (hA : ∀ c ∈ A, isDig c = true) (hB : ∀ c ∈ B, isDig c = true)
    (hAne : A ≠ []) (hBne : B ≠ []) :
    numberGrammar ((if neg then ['-'] else []) ++ (A ++ '.' :: B)) = true := by
  have hsd : signSplit (A ++ '.' :: B) = (1, A ++ '.' :: B) := by
    cases A with
    | nil => exact absurd rfl hAne
    | cons c cs =>
      have hc := isDig_ne_special (hA c (List.mem_cons_self _ _))
      simp [signSplit, hc.2.1, hc.2.2.1]
  cases neg with
  | false =>
    simp [numberGrammar, hsd, mantSplit_dot hA hB hBne, expSplit_nil]
  | true =>
    have hs : signSplit ('-' :: (A ++ '.' :: B)) = (-1, A ++ '.' :: B) := by
      simp [signSplit]
    simp [numberGrammar, hs, mantSplit_dot hA hB hBne, expSplit_nil]

lemma padDigits_ne_nil {d : ℕ} (r : ℕ) (hd : d ≠ 0) : padDigitsGo d r [] ≠ [] := by
  intro hE
  have hL := padDigitsGo_length d r []
  rw [hE] at hL
  simp at hL
  exact hd hL.symm

lemma valDigits_padDigits (d r : ℕ) (hr : r < 10 ^ d) :
    valDigits (padDigitsGo d r []) = r := by
  have h0 := padDigitsGo_val d r [] 0 hr
  rw [valDigits, h0, valD_nil]
  simp

/-- The value denoted by the `toFixed` output is exactly the
round-half-away-from-zero rounding of the input at `d` fractional digits. -/
lemma parseDecimal_toFixedL (n : ℚ) (d : ℕ) :
    parseDecimal (toFixedL n d) = roundToDec d n := by
  by_cases hd : d = 0
  · subst hd
    rw [toFixedL_d0]
    by_cases hn : n < 0
    · rw [if_pos hn]
      have h := parseDecimal_signed (l := natDigits (roundSc n 0)) true
        (natDigits_digits _) (natDigits_ne_nil _)
      simp only [if_true, List.singleton_append] at h
      rw [List.singleton_append, h, valDigits_natDigits, roundToDec, if_pos hn]
      norm_num
    · rw [if_neg hn]
      have h := parseDecimal_signed (l := natDigits (roundSc n 0)) false
        (natDigits_digits _) (natDigits_ne_nil _)
      simp at h
      rw [List.nil_append, h, valDigits_natDigits, roundToDec, if_neg hn]
      norm_num
  · rw [toFixedL_dpos n hd]
    set m := roundSc n d with hm
    have hB : ∀ c ∈ padDigitsGo d (m % 10 ^ d) [], isDig c = true :=
      padDigitsGo_digits d _ [] (by simp)
    have hBne : padDigitsGo d (m % 10 ^ d) [] ≠ [] := padDigits_ne_nil _ hd
    have hlen : (padDigitsGo d (m % 10 ^ d) []).length = d := by
      rw [padDigitsGo_length]
      rfl
    have hval : valDigits (padDigitsGo d (m % 10 ^ d) []) = m % 10 ^ d :=
      valDigits_padDigits d _ (Nat.mod_lt _ (by positivity))
    have harith :
        ((valDigits (natDigits (m / 10 ^ d)) : ℚ) +
          (valDigits (padDigitsGo d (m % 10 ^ d) []) : ℚ) /
            10 ^ (padDigitsGo d (m % 10 ^ d) []).length)
          = (m : ℚ) / 10 ^ d := by
      rw [valDigits_natDigits, hlen, hval]
      have hp : ((10 : ℚ) ^ d) ≠ 0 := by positivity
      have keyN : m / 10 ^ d * 10 ^ d + m % 10 ^ d = m := by
        rw [Nat.mul_comm]
        exact Nat.div_add_mod m (10 ^ d)
      rw [eq_div_iff hp, add_mul, div_mul_cancel₀ _ hp]
      exact_mod_cast keyN
    by_cases hn : n < 0
    · rw [if_pos hn]
      have h := parseDecimal_signed_dot (A := natDigits (m / 10 ^ d))
        (B := padDigitsGo d (m % 10 ^ d) []) true
        (natDigits_digits _) hB (natDigits_ne_nil _) hBne
      simp only [if_true, List.singleton_append] at h
      rw [List.singleton_append, h, harith, roundToDec, if_pos hn]
    · rw [if_neg hn]
      have h := parseDecimal_signed_dot (A := natDigits (m / 10 ^ d))
        (B := padDigitsGo d (m % 10 ^ d) []) false
        (natDigits_digits _) hB (natDigits_ne_nil _) hBne
      simp at h
      rw [List.nil_append, h, harith, roundToDec, if_neg hn]
      norm_num

/-- The `toFixed` output always satisfies the numeric-grammar regex. -/
lemma grammar_toFixedL (n : ℚ) (d : ℕ) : numberGrammar (toFixedL n d) = true := by
  by_cases hd : d = 0
  · subst hd
    rw [toFixedL_d0]
    by_cases hn : n < 0
    · rw [if_pos hn]
      have h := grammar_signed (l := natDigits (roundSc n 0)) true
        (natDigits_digits _) (natDigits_ne_nil _)
      simpa only [if_true] using h
    · rw [if_neg hn]
      have h := grammar_signed (l := natDigits (roundSc n 0)) false
        (natDigits_digits _) (natDigits_ne_nil _)
      simpa using h
  · rw [toFixedL_dpos n hd]
    have hB : ∀ c ∈ padDigitsGo d (roundSc n d % 10 ^ d) [], isDig c = true :=
      padDigitsGo_digits d _ [] (by simp)
    have hBne : padDigitsGo d (roundSc n d % 10 ^ d) [] ≠ [] := padDigits_ne_nil _ hd
    by_cases hn : n < 0
    · rw [if_pos hn]
      have h := grammar_signed_dot (A := natDigits (roundSc n d / 10 ^ d))
        (B := padDigitsGo d (roundSc n d % 10 ^ d) []) true
        (natDigits_digits _) hB (natDigits_ne_nil _) hBne
      simpa only [if_true] using h
    · rw [if_neg hn]
      have h := grammar_signed_dot (A := natDigits (roundSc n d / 10 ^ d))
        (B := padDigitsGo d (roundSc n d % 10 ^ d) []) false
        (natDigits_digits _) hB (natDigits_ne_nil _) hBne
      simpa using h

/-! ### Separator stripping and grouping -/

lemma isDig_ne_comma {c : Char} (h : isDig c = true) : c ≠ ',' := by
  rintro rfl
  exact absurd h (by decide)

lemma toFixedL_chars (n : ℚ) (d : ℕ) :
    ∀ c ∈ toFixedL n d, c = '-' ∨ c = '.' ∨ isDig c = true := by
  intro c hc
  by_cases hd : d = 0
  · subst hd
    rw [toFixedL_d0] at hc
    rcases List.mem_append.1 hc with h | h
    · left
      rcases em (n < 0) with hn | hn
      · rw [if_pos hn] at h; simpa using h
      · rw [if_neg hn] at h; simp at h
    · exact Or.inr (Or.inr (natDigits_digits _ _ h))
  · rw [toFixedL_dpos n hd] at hc
    rcases List.mem_append.1 hc with h | h
    · left
      rcases em (n < 0) with hn | hn
      · rw [if_pos hn] at h; simpa using h
      · rw [if_neg hn] at h; simp at h
    · rcases List.mem_append.1 h with h2 | h2
      · exact Or.inr (Or.inr (natDigits_digits _ _ h2))
      · rcases List.mem_cons.1 h2 with h3 | h3
        · exact Or.inr (Or.inl h3)
        · exact Or.inr (Or.inr (padDigitsGo_digits d _ [] (by simp) _ h3))

lemma toFixedL_no_comma (n : ℚ) (d : ℕ) : ∀ c ∈ toFixedL n d, c ≠ ',' := by
  intro c hc
  rcases toFixedL_chars n d c hc with h | h | h
  · subst h; decide
  · subst h; decide
  · exact isDig_ne_comma h

lemma patMatchAt_single {a c : Char} (cs : List Char) (ha : a ≠ '.') :
    patMatchAt [a] (c :: cs) = if a = c then some cs else none := by
  simp [patMatchAt, ha]

lemma stripGo_single {a : Char} (ha : a ≠ '.') :
    ∀ (fuel : ℕ) (l : List Char), l.length ≤ fuel →
      stripGo [a] fuel l = l.filter (· ≠ a) := by
  intro fuel
  induction fuel with
  | zero =>
    intro l hl
    rw [Nat.le_zero, List.length_eq_zero] at hl
    subst hl
    rfl
  | succ fuel ih =>
    intro l hl
    cases l with
    | nil => rfl
    | cons c cs =>
      rw [show stripGo [a] (fuel + 1) (c :: cs)
          = (match patMatchAt [a] (c :: cs) with
             | some rest => stripGo [a] fuel rest
             | none => c :: stripGo [a] fuel cs) from rfl]
      rw [patMatchAt_single cs ha]
      simp only [List.length_cons, Nat.add_le_add_iff_right] at hl
      by_cases hac : a = c
      · subst hac
        rw [if_pos rfl, List.filter_cons]
        simp [ih cs hl]
      · rw [if_neg hac, List.filter_cons]
        simp [Ne.symm hac, ih cs hl]

lemma regexStrip_single {a : Char} (ha : a ≠ '.') (l : List Char) :
    regexStripAll [a] l = l.filter (· ≠ a) := by
  rw [regexStripAll, if_neg (by simp)]
  exact stripGo_single ha _ _ le_rfl

lemma filter_of_no_comma {l : List Char} (h : ∀ c ∈ l, c ≠ ',') :
    l.filter (· ≠ ',') = l := by
  rw [List.filter_eq_self]
  intro c hc
  simpa using h c hc

lemma groupGo_filter {l : List Char} (h : ∀ c ∈ l, c ≠ ',') :
    (groupGo [','] l).filter (· ≠ ',') = l := by
  induction l with
  | nil => rfl
  | cons c cs ih =>
    have hc : c ≠ ',' := h c (List.mem_cons_self _ _)
    have ih2 := ih fun x hx => h x (List.mem_cons_of_mem _ hx)
    have ih3 : List.filter (fun x => !decide (x = ',')) (groupGo [','] cs) = cs := by
      simpa using ih2
    rw [groupGo]
    by_cases hP : cs.length % 3 = 0 ∧ cs ≠ []
    · rw [if_pos hP, List.filter_cons]
      simp only [List.singleton_append, List.filter_cons]
      simp [ih3, hc]
    · rw [if_neg hP, List.filter_cons]
      simp [ih3, hc]

lemma groupIntPart_filter {l : List Char} (h : ∀ c ∈ l, c ≠ ',') :
    (groupIntPart [','] l).filter (· ≠ ',') = l := by
  cases l with
  | nil => rfl
  | cons c cs =>
    rw [groupIntPart]
    by_cases hdash : c = '-'
    · rw [if_pos hdash, List.filter_cons]
      have hc : c ≠ ',' := h c (List.mem_cons_self _ _)
      have hg : List.filter (fun x => !decide (x = ',')) (groupGo [','] cs) = cs := by
        simpa using groupGo_filter fun x hx => h x (List.mem_cons_of_mem _ hx)
      simp [hc, hg]
    · rw [if_neg hdash]
      exact groupGo_filter h

lemma groupGo_ne_nil {sep l : List Char} (h : l ≠ []) : groupGo sep l ≠ [] := by
  cases l with
  | nil => exact absurd rfl h
  | cons c cs => simp [groupGo]

lemma groupIntPart_ne_nil {sep l : List Char} (h : l ≠ []) : groupIntPart sep l ≠ [] := by
  cases l with
  | nil => exact absurd rfl h
  | cons c cs =>
    rw [groupIntPart]
    by_cases hdash : c = '-'
    · rw [if_pos hdash]; simp
    · rw [if_neg hdash]; exact groupGo_ne_nil (by simp)

lemma toFixedL_ne_nil (n : ℚ) (d : ℕ) : toFixedL n d ≠ [] := by
  by_cases hd : d = 0
  · subst hd
    rw [toFixedL_d0]
    intro h
    rcases List.append_eq_nil.1 h with ⟨-, h2⟩
    exact natDigits_ne_nil _ h2
  · rw [toFixedL_dpos n hd]
    intro h
    rcases List.append_eq_nil.1 h with ⟨-, h2⟩
    rcases List.append_eq_nil.1 h2 with ⟨h3, -⟩
    exact natDigits_ne_nil _ h3

lemma roundSc_nonneg_eq {n : ℚ} {d m : ℕ} (hn : 0 ≤ n)
    (h1 : (m : ℚ) ≤ n * 10 ^ d + 1 / 2) (h2 : n * 10 ^ d + 1 / 2 < m + 1) :
    roundSc n d = m := by
  rw [roundSc, abs_of_nonneg hn]
  have hfl : ⌊n * 10 ^ d + 1 / 2⌋ = (m : ℤ) := by
    rw [Int.floor_eq_iff]
    constructor
    · exact_mod_cast h1
    · exact_mod_cast h2
  rw [hfl]
  exact Int.toNat_natCast m

/-! ### Round trip through the default configuration -/

lemma toFixedL_d0_notDot (n : ℚ) : ∀ c ∈ toFixedL n 0, notDot c = true := by
  intro c hc
  rw [toFixedL_d0] at hc
  rcases List.mem_append.1 hc with h | h
  · rcases em (n < 0) with hn | hn
    · rw [if_pos hn] at h
      simp only [List.mem_singleton] at h
      subst h; decide
    · rw [if_neg hn] at h; simp at h
  · have := natDigits_digits _ _ h
    simp [notDot, (isDig_ne_special this).1]

lemma signDigits_notDot (n : ℚ) (m : ℕ) :
    ∀ c ∈ (if n < 0 then ['-'] else []) ++ natDigits m, notDot c = true := by
  intro c hc
  rcases List.mem_append.1 hc with h | h
  · rcases em (n < 0) with hn | hn
    · rw [if_pos hn] at h
      simp only [List.mem_singleton] at h
      subst h; decide
    · rw [if_neg hn] at h; simp at h
  · have := natDigits_digits _ _ h
    simp [notDot, (isDig_ne_special this).1]

lemma toFixedL_split_d0 (n : ℚ) :
    (toFixedL n 0).takeWhile notDot = toFixedL n 0 ∧
      (toFixedL n 0).dropWhile notDot = [] :=
  takeWhile_all (toFixedL_d0_notDot n)

lemma toFixedL_split_dpos (n : ℚ) {d : ℕ} (hd : d ≠ 0) :
    (toFixedL n d).takeWhile notDot
        = (if n < 0 then ['-'] else []) ++ natDigits (roundSc n d / 10 ^ d) ∧
      (toFixedL n d).dropWhile notDot
        = '.' :: padDigitsGo d (roundSc n d % 10 ^ d) [] := by
  rw [toFixedL_dpos n hd, ← List.append_assoc]
  exact takeWhile_stop (x := '.') (by decide) _ (signDigits_notDot n _)

lemma signDigits_no_comma (n : ℚ) (m : ℕ) :
    ∀ c ∈ (if n < 0 then ['-'] else []) ++ natDigits m, c ≠ ',' := by
  intro c hc
  rcases List.mem_append.1 hc with h | h
  · rcases em (n < 0) with hn | hn
    · rw [if_pos hn] at h
      simp only [List.mem_singleton] at h
      subst h; decide
    · rw [if_neg hn] at h; simp at h
  · exact isDig_ne_comma (natDigits_digits _ _ h)

lemma formatNumberL_default (n : ℚ) (d : ℕ) (c : Bool) :
    formatNumberL defaultConfig n d c =
      (if c then
        groupIntPart [','] ((toFixedL n d).takeWhile notDot) ++ (toFixedL n d).dropWhile notDot
       else toFixedL n d) := by
  have hpre : defaultConfig.prefixText.data = [] := rfl
  have hsuf : defaultConfig.suffixText.data = [] := rfl
  have hsep : defaultConfig.separator.data = [','] := rfl
  cases c with
  | false => simp [formatNumberL, hpre, hsuf, hsep]
  | true => simp [formatNumberL, hpre, hsuf, hsep]

lemma strip_format_default (n : ℚ) (d : ℕ) (c : Bool) :
    regexStripAll [','] (formatNumberL defaultConfig n d c) = toFixedL n d := by
  rw [regexStrip_single (by decide), formatNumberL_default]
  cases c with
  | false =>
    rw [if_neg (by simp)]
    exact filter_of_no_comma (toFixedL_no_comma n d)
  | true =>
    rw [if_pos rfl]
    by_cases hd : d = 0
    · subst hd
      rw [(toFixedL_split_d0 n).1, (toFixedL_split_d0 n).2, List.append_nil]
      have hnc : ∀ x ∈ toFixedL n 0, x ≠ ',' := toFixedL_no_comma n 0
      exact groupIntPart_filter hnc
    · rw [(toFixedL_split_dpos n hd).1, (toFixedL_split_dpos n hd).2, List.filter_append]
      have h1 := groupIntPart_filter (signDigits_no_comma n (roundSc n d / 10 ^ d))
      rw [h1, List.filter_cons]
      have hB : List.filter (fun x => x ≠ ',') (padDigitsGo d (roundSc n d % 10 ^ d) [])
          = padDigitsGo d (roundSc n d % 10 ^ d) [] :=
        filter_of_no_comma fun x hx => isDig_ne_comma (padDigitsGo_digits d _ [] (by simp) _ hx)
      simp only [show (decide ('.' ≠ ',')) = true by decide, if_true]
      rw [show (fun x => decide (x ≠ ',')) = (fun x => x ≠ ',') from rfl] at hB
      rw [hB, toFixedL_dpos n hd, List.append_assoc]

lemma formatNumberL_default_ne_nil (n : ℚ) (d : ℕ) (c : Bool) :
    formatNumberL defaultConfig n d c ≠ [] := by
  rw [formatNumberL_default]
  cases c with
  | false => simpa using toFixedL_ne_nil n d
  | true =>
    rw [if_pos rfl]
    by_cases hd : d = 0
    · subst hd
      rw [(toFixedL_split_d0 n).1, (toFixedL_split_d0 n).2, List.append_nil]
      exact groupIntPart_ne_nil (toFixedL_ne_nil n 0)
    · rw [(toFixedL_split_dpos n hd).1]
      intro h
      rcases List.append_eq_nil.1 h with ⟨h1, -⟩
      refine groupIntPart_ne_nil ?_ h1
      intro h2
      rcases List.append_eq_nil.1 h2 with ⟨-, h3⟩
      exact natDigits_ne_nil _ h3

lemma parseValueL_default (value : List Char) (hne : value ≠ []) :
    parseValueL defaultConfig value =
      (if numberGrammar (regexStripAll [','] value) = true then
        some
          { number := parseDecimal (regexStripAll [','] value)
            decimals := detectDecimals (regexStripAll [','] value)
            hasComma := containsL [','] value }
       else none) := by
  have hpre : defaultConfig.prefixText.data = [] := rfl
  have hsuf : defaultConfig.suffixText.data = [] := rfl
  have hsep : defaultConfig.separator.data = [','] := rfl
  have hdec : defaultConfig.decimals = none := rfl
  simp only [parseValueL, hpre, hsuf, hsep, hdec, hne, ne_eq, not_true_eq_false,
    false_and, if_false, ite_false]

/-- Re-parsing a default-config formatted number succeeds and recovers the
round-half-away-from-zero rounding of the formatted value. -/
lemma format_parse_default (n : ℚ) (d : ℕ) (c : Bool) :
    parseValueL defaultConfig (formatNumberL defaultConfig n d c) =
      some
        { number := roundToDec d n
          decimals := detectDecimals (toFixedL n d)
          hasComma := containsL [','] (formatNumberL defaultConfig n d c) } := by
  rw [parseValueL_default _ (formatNumberL_default_ne_nil n d c), strip_format_default,
    if_pos (grammar_toFixedL n d), parseDecimal_toFixedL]

/-! ### Map lemmas -/

lemma lookupL_cons {α : Type} (k e : ℕ) (v : α) (l : List (ℕ × α)) :
    lookupL ((k, v) :: l) e = if k = e then some v else lookupL l e := rfl

lemma lookupL_mem {α : Type} : ∀ {l : List (ℕ × α)} {k : ℕ} {v : α},
    lookupL l k = some v → (k, v) ∈ l := by
  intro l
  induction l with
  | nil => intro k v h; simp [lookupL] at h
  | cons q r ih =>
    intro k v h
    cases q with
    | mk a b =>
      rw [lookupL_cons] at h
      by_cases ha : a = k
      · subst ha
        rw [if_pos rfl] at h
        simp only [Option.some.injEq] at h
        subst h
        exact List.mem_cons_self _ _
      · rw [if_neg ha] at h
        exact List.mem_cons_of_mem _ (ih h)

lemma mem_eraseKey {α : Type} {k : ℕ} {l : List (ℕ × α)} {q : ℕ × α}
    (h : q ∈ eraseKey k l) : q ∈ l ∧ q.1 ≠ k := by
  rw [eraseKey, List.mem_filter] at h
  exact ⟨h.1, by simpa using h.2⟩

lemma lookupL_erase_ne {α : Type} {k k' : ℕ} (h : k' ≠ k) :
    ∀ l : List (ℕ × α), lookupL (eraseKey k l) k' = lookupL l k' := by
  intro l
  induction l with
  | nil => rfl
  | cons q r ih =>
    cases q with
    | mk a b =>
      rw [eraseKey, List.filter_cons]
      rw [eraseKey] at ih
      by_cases ha : a = k
      · subst ha
        simp only [ne_eq, not_true_eq_false, decide_False, Bool.false_eq_true, if_false]
        rw [ih, lookupL_cons, if_neg (Ne.symm h)]
      · simp only [ne_eq, ha, not_false_eq_true, decide_True, if_true]
        rw [lookupL_cons, lookupL_cons]
        by_cases hak : a = k'
        · rw [if_pos hak, if_pos hak]
        · rw [if_neg hak, if_neg hak, ih]

lemma lookupL_erase_self {α : Type} (k : ℕ) (l : List (ℕ × α)) :
    lookupL (eraseKey k l) k = none := by
  induction l with
  | nil => rfl
  | cons q r ih =>
    cases q with
    | mk a b =>
      rw [eraseKey, List.filter_cons]
      rw [eraseKey] at ih
      by_cases ha : a = k
      · subst ha
        simpa only [ne_eq, not_true_eq_false, decide_False, Bool.false_eq_true, if_false]
          using ih
      · simp only [ne_eq, ha, not_false_eq_true, decide_True, if_true]
        rw [lookupL_cons, if_neg ha]
        exact ih

lemma lookupL_set_self {α : Type} (k : ℕ) (v : α) (l : List (ℕ × α)) :
    lookupL (setKey k v l) k = some v := by
  rw [setKey, lookupL_cons, if_pos rfl]

lemma lookupL_set_ne {α : Type} {k k' : ℕ} (h : k' ≠ k) (v : α) (l : List (ℕ × α)) :
    lookupL (setKey k v l) k' = lookupL l k' := by
  rw [setKey, lookupL_cons, if_neg (Ne.symm h), lookupL_erase_ne h]

/-! ### The one-live-session invariant -/

lemma inv_initAnim : Inv initAnim := by
  refine ⟨?_, ?_, ?_, ?_⟩ <;> simp [initAnim]

lemma cancel_nextId (e : ℕ) (σ : AnimState) :
    (cancelAnimation e σ).nextId = σ.nextId := by
  rw [cancelAnimation]
  cases lookupL σ.animations e <;> rfl

lemma inv_cancel (e : ℕ) {σ : AnimState} (h : Inv σ) : Inv (cancelAnimation e σ) := by
  obtain ⟨h1, h2, h3, h4⟩ := h
  rw [cancelAnimation]
  cases htok : lookupL σ.animations e with
  | none => exact ⟨h1, h2, h3, h4⟩
  | some tok =>
    refine ⟨?_, ?_, ?_, ?_⟩
    · intro p hp
      exact h1 p (mem_eraseKey hp).1
    · intro q hq
      exact h2 q (mem_eraseKey hq).1
    · intro p hp
      obtain ⟨hmem, hkey⟩ := mem_eraseKey hp
      have hl := h3 p hmem
      have hne : p.2.elemId ≠ e := by
        intro he
        rw [he, htok] at hl
        exact hkey (by simpa using hl.symm)
      rw [lookupL_erase_ne hne]
      exact hl
    · refine h4.sublist (List.Sublist.map _ ?_)
      exact List.filter_sublist _

/-- After `cancelAnimation`, no pending request belongs to the element. -/
lemma cancel_pendingFor (e : ℕ) {σ : AnimState} (h : Inv σ) :
    ∀ p ∈ (cancelAnimation e σ).pending, p.2.elemId ≠ e := by
  obtain ⟨h1, h2, h3, h4⟩ := h
  rw [cancelAnimation]
  cases htok : lookupL σ.animations e with
  | none =>
    intro p hp he
    have hl := h3 p hp
    rw [he, htok] at hl
    exact Option.noConfusion hl
  | some tok =>
    intro p hp he
    obtain ⟨hmem, hkey⟩ := mem_eraseKey hp
    have hl := h3 p hmem
    rw [he, htok] at hl
    exact hkey (by simpa using hl.symm)

lemma inv_animate (reg : List (ℕ × ParsedData)) (e : ℕ) {σ : AnimState} (h : Inv σ) :
    Inv (animate reg e σ) := by
  have hc := inv_cancel e h
  have hpf := cancel_pendingFor e h
  cases hreg : lookupL reg e with
  | none =>
    rw [animate, hreg]
    exact hc
  | some p =>
    obtain ⟨h1, h2, h3, h4⟩ := hc
    rw [animate, hreg]
    refine ⟨?_, ?_, ?_, ?_⟩
    · intro q hq
      rcases List.mem_cons.1 hq with hq | hq
      · subst hq; simp
      · exact lt_trans (h1 q hq) (Nat.lt_succ_self _)
    · intro q hq
      rw [setKey] at hq
      rcases List.mem_cons.1 hq with hq | hq
      · subst hq; simp
      · exact lt_trans (h2 q (mem_eraseKey hq).1) (Nat.lt_succ_self _)
    · intro q hq
      rcases List.mem_cons.1 hq with hq | hq
      · subst hq
        exact lookupL_set_self _ _ _
      · have hne : q.2.elemId ≠ e := hpf q hq
        rw [lookupL_set_ne hne]
        exact h3 q hq
    · rw [List.map_cons]
      refine List.nodup_cons.2 ⟨?_, h4⟩
      intro hmem
      simp only [List.mem_map] at hmem
      obtain ⟨q, hq, hkey⟩ := hmem
      exact absurd (hkey ▸ h1 q hq) (lt_irrefl _)

lemma inv_fireFrame (cfg : Config) (ease : ℚ → ℚ) (tok : ℕ) (ts : ℚ) {σ : AnimState}
    (h : Inv σ) : Inv (fireFrame cfg ease tok ts σ) := by
  obtain ⟨h1, h2, h3, h4⟩ := h
  rw [fireFrame]
  cases hfd : lookupL σ.pending tok with
  | none => exact ⟨h1, h2, h3, h4⟩
  | some fd =>
    have hmem := lookupL_mem hfd
    have htokmap : lookupL σ.animations fd.elemId = some tok := h3 (tok, fd) hmem
    have hrest : ∀ p ∈ eraseKey tok σ.pending, p.2.elemId ≠ fd.elemId := by
      intro p hp he
      obtain ⟨hm, hk⟩ := mem_eraseKey hp
      have := h3 p hm
      rw [he, htokmap] at this
      exact hk (by simpa using this.symm)
    simp only [stepRun]
    by_cases hprog : min 1 ((ts - (fd.startTime.getD ts)) / cfg.duration) < 1
    · rw [if_pos hprog]
      refine ⟨?_, ?_, ?_, ?_⟩
      · intro q hq
        rcases List.mem_cons.1 hq with hq | hq
        · subst hq; simp
        · exact lt_trans (h1 q (mem_eraseKey hq).1) (Nat.lt_succ_self _)
      · intro q hq
        rw [setKey] at hq
        rcases List.mem_cons.1 hq with hq | hq
        · subst hq; simp
        · exact lt_trans (h2 q (mem_eraseKey hq).1) (Nat.lt_succ_self _)
      · intro q hq
        rcases List.mem_cons.1 hq with hq | hq
        · subst hq
          exact lookupL_set_self _ _ _
        · have hne : q.2.elemId ≠ fd.elemId := hrest q hq
          rw [lookupL_set_ne hne]
          exact h3 q (mem_eraseKey hq).1
      · rw [List.map_cons]
        refine List.nodup_cons.2 ⟨?_, ?_⟩
        · intro hmem2
          simp only [List.mem_map] at hmem2
          obtain ⟨q, hq, hkey⟩ := hmem2
          exact absurd (hkey ▸ h1 q (mem_eraseKey hq).1) (lt_irrefl _)
        · refine h4.sublist (List.Sublist.map _ ?_)
          exact List.filter_sublist _
    · rw [if_neg hprog]
      refine ⟨?_, ?_, ?_, ?_⟩
      · intro q hq
        exact h1 q (mem_eraseKey hq).1
      · intro q hq
        obtain ⟨hm, hk⟩ := mem_eraseKey hq
        exact h2 q hm
      · intro q hq
        have hne : q.2.elemId ≠ fd.elemId := hrest q hq
        rw [lookupL_erase_ne hne]
        exact h3 q (mem_eraseKey hq).1
      · refine h4.sublist (List.Sublist.map _ ?_)
        exact List.filter_sublist _

lemma inv_applyOp (cfg : Config) (ease : ℚ → ℚ) (reg : List (ℕ × ParsedData))
    {σ : AnimState} (h : Inv σ) (op : Op) : Inv (applyOp cfg ease reg σ op) := by
  cases op with
  | anim e => exact inv_animate reg e h
  | cancel e => exact inv_cancel e h
  | frame tok ts => exact inv_fireFrame cfg ease tok ts h

lemma inv_runOps (cfg : Config) (ease : ℚ → ℚ) (reg : List (ℕ × ParsedData))
    (ops : List Op) : ∀ {σ : AnimState}, Inv σ → Inv (runOps cfg ease reg ops σ) := by
  induction ops with
  | nil => intro σ h; exact h
  | cons op rest ih =>
    intro σ h
    exact ih (inv_applyOp cfg ease reg h op)

lemma nodup_all_eq_length_le_one {l : List ℕ} (hN : l.Nodup) (t : ℕ)
    (h : ∀ x ∈ l, x = t) : l.length ≤ 1 := by
  cases l with
  | nil => simp
  | cons a r =>
    cases r with
    | nil => simp
    | cons b r2 =>
      have ha : a = t := h a (by simp)
      have hb : b = t := h b (by simp)
      rw [List.nodup_cons] at hN
      exact absurd (by simp [ha, hb]) hN.1

/-- Under the invariant, at most one pending scheduler request belongs to
any element. -/
lemma pendingCount_le_one {σ : AnimState} (h : Inv σ) (e : ℕ) :
    pendingCount σ e ≤ 1 := by
  obtain ⟨h1, h2, h3, h4⟩ := h
  rw [pendingCount]
  cases htok : lookupL σ.animations e with
  | none =>
    have : σ.pending.filter (fun p => p.2.elemId = e) = [] := by
      rw [List.filter_eq_nil_iff]
      intro p hp hpe
      have := h3 p hp
      rw [show p.2.elemId = e by simpa using hpe, htok] at this
      exact Option.noConfusion this
    rw [this]
    simp
  | some t =>
    have hNod : ((σ.pending.filter (fun p => p.2.elemId = e)).map Prod.fst).Nodup := by
      refine h4.sublist (List.Sublist.map _ ?_)
      exact List.filter_sublist _
    have hall : ∀ x ∈ (σ.pending.filter (fun p => p.2.elemId = e)).map Prod.fst, x = t := by
      intro x hx
      simp only [List.mem_map] at hx
      obtain ⟨p, hp, hkey⟩ := hx
      rw [List.mem_filter] at hp
      have := h3 p hp.1
      rw [show p.2.elemId = e by simpa using hp.2, htok] at this
      simp only [Option.some.injEq] at this
      rw [← hkey, ← this]
    have := nodup_all_eq_length_le_one hNod t hall
    simpa using this

lemma lookupL_none {α : Type} {k : ℕ} :
    ∀ {l : List (ℕ × α)}, (∀ q ∈ l, q.1 ≠ k) → lookupL l k = none := by
  intro l
  induction l with
  | nil => intro; rfl
  | cons q r ih =>
    intro h
    cases q with
    | mk a b =>
      rw [lookupL_cons, if_neg (h (a, b) (List.mem_cons_self _ _))]
      exact ih fun x hx => h x (List.mem_cons_of_mem _ hx)

lemma eraseKey_no_key {α : Type} {k : ℕ} {l : List (ℕ × α)}
    (h : ∀ q ∈ l, q.1 ≠ k) : eraseKey k l = l := by
  rw [eraseKey, List.filter_eq_self]
  intro q hq
  simpa using h q hq

/-- Unfolding `cancelAnimation` when the element has no recorded token. -/
lemma cancelAnimation_eq_none {e : ℕ} {σ : AnimState}
    (h : lookupL σ.animations e = none) : cancelAnimation e σ = σ := by
  simp only [cancelAnimation, h]

/-- Unfolding `cancelAnimation` when the element has a recorded token. -/
lemma cancelAnimation_eq {e : ℕ} {σ : AnimState} {tok : ℕ}
    (h : lookupL σ.animations e = some tok) :
    cancelAnimation e σ =
      { σ with pending := eraseKey tok σ.pending, animations := eraseKey e σ.animations } := by
  simp only [cancelAnimation, h]

/-- Unfolding `animate` on a registered element. -/
lemma animate_eq (reg : List (ℕ × ParsedData)) (e : ℕ) (σ : AnimState) {p : ParsedData}
    (hreg : lookupL reg e = some p) :
    animate reg e σ =
      { nextId := σ.nextId + 1
        pending := (σ.nextId, ⟨e, p.number, p.decimals, p.hasComma, none⟩) ::
          (cancelAnimation e σ).pending
        animations := setKey e σ.nextId (cancelAnimation e σ).animations
        display := (cancelAnimation e σ).display } := by
  rw [animate, hreg, cancel_nextId]

/-- Calling `animate` twice in succession on a registered element leaves
exactly one pending request for it, and the request created by the first
call is no longer pending. -/
lemma animate_twice (reg : List (ℕ × ParsedData)) (e : ℕ) {σ : AnimState} {p : ParsedData}
    (h : Inv σ) (hreg : lookupL reg e = some p) :
    pendingCount (animate reg e (animate reg e σ)) e = 1 ∧
      lookupL (animate reg e (animate reg e σ)).pending σ.nextId = none := by
  obtain ⟨h1, h2, h3, h4⟩ := h
  have hpf := cancel_pendingFor e ⟨h1, h2, h3, h4⟩
  have he1 := animate_eq reg e σ hreg
  have he2 := animate_eq reg e (animate reg e σ) hreg
  -- the second `animate` first cancels the session created by the first
  have hlook : lookupL (animate reg e σ).animations e = some σ.nextId := by
    rw [he1]
    exact lookupL_set_self _ _ _
  have hkeys : ∀ q ∈ (cancelAnimation e σ).pending, q.1 ≠ σ.nextId := by
    intro q hq
    have hlt : q.1 < σ.nextId := by
      cases htok : lookupL σ.animations e with
      | none =>
        rw [cancelAnimation_eq_none htok] at hq
        exact h1 q hq
      | some tok =>
        rw [cancelAnimation_eq htok] at hq
        exact h1 q (mem_eraseKey hq).1
    omega
  have hc2 : (cancelAnimation e (animate reg e σ)).pending
      = (cancelAnimation e σ).pending := by
    rw [cancelAnimation_eq hlook]
    show eraseKey σ.nextId (animate reg e σ).pending = _
    rw [he1]
    show eraseKey σ.nextId ((σ.nextId, _) :: (cancelAnimation e σ).pending) = _
    rw [eraseKey, List.filter_cons]
    simp only [ne_eq, not_true_eq_false, decide_False, Bool.false_eq_true, if_false]
    exact eraseKey_no_key hkeys
  have hnext1 : (animate reg e σ).nextId = σ.nextId + 1 := by rw [he1]
  constructor
  · rw [pendingCount, he2, hc2]
    rw [List.filter_cons]
    simp only [decide_True, if_true, List.length_cons]
    have : (cancelAnimation e σ).pending.filter (fun p => p.2.elemId = e) = [] := by
      rw [List.filter_eq_nil_iff]
      intro q hq hqe
      exact hpf q hq (by simpa using hqe)
    rw [this]
    rfl
  · rw [he2, hc2, lookupL_cons, if_neg (by omega), lookupL_none hkeys]

/-- A frame delivered at or after `startTime + duration` clamps progress to
1, renders the exact stored target, and releases the session. -/
lemma fire_complete (cfg : Config) (ease : ℚ → ℚ) (tok : ℕ) (ts st : ℚ)
    {σ : AnimState} {fd : FrameData} (hfd : lookupL σ.pending tok = some fd)
    (hst : fd.startTime = some st) (hdur : 0 < cfg.duration)
    (hts : st + cfg.duration ≤ ts) :
    lookupL (fireFrame cfg ease tok ts σ).display fd.elemId
        = some (formatNumber cfg fd.targetValue fd.decimals fd.hasComma) ∧
      lookupL (fireFrame cfg ease tok ts σ).animations fd.elemId = none := by
  rw [fireFrame, hfd]
  simp only [stepRun, hst, Option.getD_some]
  have hone : (1 : ℚ) ≤ (ts - st) / cfg.duration := by
    rw [le_div_iff₀ hdur]
    linarith
  have hmin : min 1 ((ts - st) / cfg.duration) = 1 := min_eq_left hone
  rw [hmin, if_neg (lt_irrefl 1)]
  exact ⟨lookupL_set_self _ _ _, lookupL_erase_self _ _⟩

/-! ### Rounding bounds -/

lemma roundSc_cast {n : ℚ} (d : ℕ) :
    (roundSc n d : ℚ) = (⌊|n| * 10 ^ d + 1 / 2⌋ : ℤ) := by
  rw [roundSc]
  have hnn : (0 : ℤ) ≤ ⌊|n| * 10 ^ d + 1 / 2⌋ := by
    apply Int.floor_nonneg.2
    positivity
  exact_mod_cast congrArg (Int.cast : ℤ → ℚ) (Int.toNat_of_nonneg hnn)

lemma roundSc_close (n : ℚ) (d : ℕ) :
    |(roundSc n d : ℚ) - |n| * 10 ^ d| ≤ 1 / 2 := by
  rw [roundSc_cast]
  set x := |n| * 10 ^ d with hx
  have h1 : ((⌊x + 1 / 2⌋ : ℤ) : ℚ) ≤ x + 1 / 2 := Int.floor_le _
  have h2 : x + 1 / 2 < (⌊x + 1 / 2⌋ : ℤ) + 1 := Int.lt_floor_add_one _
  rw [abs_le]
  constructor <;> linarith

lemma roundSc_away (n : ℚ) (d : ℕ)
    (h : |(roundSc n d : ℚ) - |n| * 10 ^ d| = 1 / 2) :
    |n| * 10 ^ d ≤ (roundSc n d : ℚ) := by
  rw [roundSc_cast] at h ⊢
  set x := |n| * 10 ^ d with hx
  have h2 : x + 1 / 2 < (⌊x + 1 / 2⌋ : ℤ) + 1 := Int.lt_floor_add_one _
  rcases abs_eq (by norm_num : (0 : ℚ) ≤ 1 / 2) |>.1 h with he | he
  · linarith
  · linarith

lemma roundToDec_sub (d : ℕ) (n : ℚ) :
    |roundToDec d n - n| = |(roundSc n d : ℚ) - |n| * 10 ^ d| / 10 ^ d := by
  have hp : (0 : ℚ) < 10 ^ d := by positivity
  rw [roundToDec]
  by_cases hn : n < 0
  · rw [if_pos hn]
    rw [show (-1 : ℚ) * ((roundSc n d : ℚ) / 10 ^ d) - n
        = -(((roundSc n d : ℚ) - |n| * 10 ^ d) / 10 ^ d) by
      rw [abs_of_neg hn]
      field_simp
      ring]
    rw [abs_neg, abs_div, abs_of_pos hp]
  · rw [if_neg hn]
    rw [show (1 : ℚ) * ((roundSc n d : ℚ) / 10 ^ d) - n
        = ((roundSc n d : ℚ) - |n| * 10 ^ d) / 10 ^ d by
      rw [abs_of_nonneg (le_of_not_lt hn)]
      field_simp
      ring]
    rw [abs_div, abs_of_pos hp]

/-- The rendered rounding is within half an ulp of the value. -/
lemma roundToDec_bound (d : ℕ) (n : ℚ) :
    |roundToDec d n - n| ≤ 1 / (2 * 10 ^ d) := by
  have hp : (0 : ℚ) < 10 ^ d := by positivity
  rw [roundToDec_sub]
  rw [div_le_div_iff₀ hp (by positivity)]
  have := roundSc_close n d
  calc |(roundSc n d : ℚ) - |n| * 10 ^ d| * (2 * 10 ^ d)
      ≤ (1 / 2) * (2 * 10 ^ d) := by
        apply mul_le_mul_of_nonneg_right this
        positivity
    _ = 1 * 10 ^ d := by ring

/-- At an exact tie the rounding moves away from zero. -/
lemma roundToDec_tie (d : ℕ) (n : ℚ)
    (h : |roundToDec d n - n| = 1 / (2 * 10 ^ d)) : |n| ≤ |roundToDec d n| := by
  have hp : (0 : ℚ) < 10 ^ d := by positivity
  have htie : |(roundSc n d : ℚ) - |n| * 10 ^ d| = 1 / 2 := by
    rw [roundToDec_sub] at h
    rw [div_eq_div_iff (ne_of_gt hp) (by positivity)] at h
    have h' : (|(roundSc n d : ℚ) - |n| * 10 ^ d| * 2) * 10 ^ d = 1 * 10 ^ d := by
      calc (|(roundSc n d : ℚ) - |n| * 10 ^ d| * 2) * 10 ^ d
          = |(roundSc n d : ℚ) - |n| * 10 ^ d| * (2 * 10 ^ d) := by ring
        _ = 1 * 10 ^ d := h
    have h2 := mul_right_cancel₀ (ne_of_gt hp) h'
    linarith
  have haway := roundSc_away n d htie
  have hnn : (0 : ℚ) ≤ (roundSc n d : ℚ) := by positivity
  have habs : |roundToDec d n| = (roundSc n d : ℚ) / 10 ^ d := by
    rw [roundToDec]
    by_cases hn : n < 0
    · rw [if_pos hn, abs_mul]
      rw [abs_of_nonneg (by positivity : (0:ℚ) ≤ (roundSc n d : ℚ) / 10 ^ d)]
      norm_num
    · rw [if_neg hn, one_mul]
      exact abs_of_nonneg (by positivity)
  rw [habs, le_div_iff₀ hp]
  calc |n| * 10 ^ d = |n| * 10 ^ d := rfl
    _ ≤ (roundSc n d : ℚ) := haway

/-! ### Orchestrator display facts -/

lemma cancel_display (e : ℕ) (σ : AnimState) :
    (cancelAnimation e σ).display = σ.display := by
  cases htok : lookupL σ.animations e with
  | none => rw [cancelAnimation_eq_none htok]
  | some tok => rw [cancelAnimation_eq htok]

/-! ### Claim theorems -/

/-- C6: each of the eight easing functions satisfies `f(0) = 0` and
`f(1) = 1` (with `easeOutExpo` guarded explicitly at `t = 1`), and the
code's decrement/product forms agree with the stated polynomial formulas. -/
theorem counterup_C6 :
    (easeLinear 0 = 0 ∧ easeLinear 1 = 1) ∧
    (easeInQuad 0 = 0 ∧ easeInQuad 1 = 1) ∧
    (easeOutQuad 0 = 0 ∧ easeOutQuad 1 = 1) ∧
    (easeInOutQuad 0 = 0 ∧ easeInOutQuad 1 = 1) ∧
    (easeInCubic 0 = 0 ∧ easeInCubic 1 = 1) ∧
    (easeOutCubic 0 = 0 ∧ easeOutCubic 1 = 1) ∧
    (easeInOutCubic 0 = 0 ∧ easeInOutCubic 1 = 1) ∧
    (easeOutExpo 0 = 0 ∧ easeOutExpo 1 = 1) ∧
    (∀ t : ℝ, easeInQuad t = t ^ 2) ∧
    (∀ t : ℝ, easeInCubic t = t ^ 3) ∧
    (∀ t : ℝ, easeOutCubic t = (t - 1) ^ 3 + 1) ∧
    (∀ t : ℝ, ¬t < 0.5 → easeInOutCubic t = (t - 1) * (2 * t - 2) ^ 2 + 1) := by
  refine ⟨⟨rfl, rfl⟩, ⟨by norm_num [easeInQuad], by norm_num [easeInQuad]⟩,
    ⟨by norm_num [easeOutQuad], by norm_num [easeOutQuad]⟩, ⟨?_, ?_⟩,
    ⟨by norm_num [easeInCubic], by norm_num [easeInCubic]⟩,
    ⟨by norm_num [easeOutCubic], by norm_num [easeOutCubic]⟩, ⟨?_, ?_⟩, ⟨?_, ?_⟩,
    ?_, ?_, ?_, ?_⟩
  · rw [easeInOutQuad, if_pos (by norm_num : (0:ℝ) < 0.5)]
    ring
  · rw [easeInOutQuad, if_neg (by norm_num : ¬(1:ℝ) < 0.5)]
    ring
  · rw [easeInOutCubic, if_pos (by norm_num : (0:ℝ) < 0.5)]
    ring
  · rw [easeInOutCubic, if_neg (by norm_num : ¬(1:ℝ) < 0.5)]
    ring
  · rw [easeOutExpo, if_neg (by norm_num : (0:ℝ) ≠ 1)]
    norm_num [Real.rpow_zero]
  · rw [easeOutExpo, if_pos rfl]
  · intro t
    rw [easeInQuad]
    ring
  · intro t
    rw [easeInCubic]
    ring
  · intro t
    rw [easeOutCubic]
    ring
  · intro t ht
    rw [easeInOutCubic, if_neg ht]
    ring

/-- Witness for C6 at concrete points. -/
theorem counterup_C6_witness :
    easeOutCubic 2 = (2 - 1 : ℝ) ^ 3 + 1 ∧ easeInQuad 3 = (3 : ℝ) ^ 2 :=
  ⟨counterup_C6.2.2.2.2.2.2.2.2.2.2.1 2, counterup_C6.2.2.2.2.2.2.2.2.1 3⟩

/-- C9: the registration loop processes every element; an element is
skipped with a recorded warning exactly when its trimmed text is empty or
fails to parse, it is registered when parsing succeeds, and each element's
outcome is independent of the other elements (the batch never fails as a
whole). -/
theorem counterup_C9 :
    (∀ (cfg : Config) (es : List String), (initBatch cfg es).length = es.length) ∧
    (∀ (cfg : Config) (xs : List String) (e : String) (ys : List String),
        initBatch cfg (xs ++ e :: ys)
          = initBatch cfg xs ++ registerOne cfg e :: initBatch cfg ys) ∧
    (∀ (cfg : Config) (raw : String), trimL raw.data = [] →
        registerOne cfg raw = RegOutcome.skipped "CounterUp: Element is empty:") ∧
    (∀ (cfg : Config) (raw : String), trimL raw.data ≠ [] →
        parseValueL cfg (trimL raw.data) = none →
        registerOne cfg raw = RegOutcome.skipped
          ("CounterUp: Could not parse a valid number from: " ++ ⟨trimL raw.data⟩)) ∧
    (∀ (cfg : Config) (raw : String) (p : ParsedData), trimL raw.data ≠ [] →
        parseValueL cfg (trimL raw.data) = some p →
        registerOne cfg raw = RegOutcome.registered p) := by
  refine ⟨?_, ?_, ?_, ?_, ?_⟩
  · intro cfg es
    induction es with
    | nil => rfl
    | cons e rest ih => simp [initBatch, ih]
  · intro cfg xs e ys
    induction xs with
    | nil => rfl
    | cons x rest ih =>
      rw [List.cons_append, initBatch, initBatch, ih]
      rfl
  · intro cfg raw h
    rw [registerOne, if_pos h]
  · intro cfg raw h hp
    rw [registerOne, if_neg h, hp]
  · intro cfg raw p h hp
    rw [registerOne, if_neg h, hp]

/-- Witness for C9: a blank element is skipped with the empty warning, and
a well-formed element is registered. -/
theorem counterup_C9_witness :
    registerOne defaultConfig "   " = RegOutcome.skipped "CounterUp: Element is empty:" ∧
    (initBatch defaultConfig ["   ", "7"]).length = 2 :=
  ⟨counterup_C9.2.2.1 defaultConfig "   " (by decide),
   counterup_C9.1 defaultConfig ["   ", "7"]⟩

/-- C4 counterexample: with a prefix configured, an exit-visible transition
writes the literal string `"0"`, not the NumberFormatter baseline
`prefix + "0" + suffix` the claim asserts. -/
theorem counterup_C4_cex :
    lookupL (observerEvent { defaultConfig with prefixText := "$" } [] 0 false
        ⟨⟨0, [], [], [(0, "$123")]⟩, [(0, true)], [0]⟩).anim.display 0 = some "0" ∧
      formatNumber { defaultConfig with prefixText := "$" } 0 0 false = "$0" ∧
      some ("0" : String) ≠ some ("$0" : String) := by
  refine ⟨by decide, ?_, by decide⟩
  have hr : roundSc (0 : ℚ) 0 = 0 :=
    roundSc_nonneg_eq le_rfl (by norm_num) (by norm_num)
  have h1 : toFixedL (0 : ℚ) 0 = ['0'] := by
    rw [toFixedL_d0, hr, if_neg (by norm_num)]
    decide
  rw [formatNumber, formatNumberL, if_neg (by decide), h1]
  decide

/-- C4 (amended): on an exit-visible transition the displayed text is set
to the literal `"0"` when `once = false` (this equals the NumberFormatter
baseline only when prefix and suffix are empty, as in the default config);
with `once = true` the display is untouched; a `once` entry removes the
subscription, and an unsubscribed element receives no further events. -/
theorem counterup_C4 :
    (∀ (cfg : Config) (reg : List (ℕ × ParsedData)) (σ : OrchState) (e : ℕ),
        e ∈ σ.subscribed → (lookupL σ.visible e).getD false = true →
        (cfg.once = false →
          lookupL (observerEvent cfg reg e false σ).anim.display e = some "0") ∧
        (cfg.once = true →
          (observerEvent cfg reg e false σ).anim.display = σ.anim.display)) ∧
    (∀ (cfg : Config) (reg : List (ℕ × ParsedData)) (σ : OrchState) (e : ℕ),
        cfg.once = true → e ∈ σ.subscribed →
        e ∉ (observerEvent cfg reg e true σ).subscribed) ∧
    (∀ (cfg : Config) (reg : List (ℕ × ParsedData)) (σ : OrchState) (e : ℕ) (b : Bool),
        e ∉ σ.subscribed → observerEvent cfg reg e b σ = σ) ∧
    formatNumber defaultConfig 0 0 false = "0" := by
  refine ⟨?_, ?_, ?_, ?_⟩
  · intro cfg reg σ e hsub hvis
    constructor
    · intro honce
      rw [observerEvent, if_pos hsub]
      simp only [hvis, honce, Bool.false_eq_true, if_false, if_true]
      exact lookupL_set_self _ _ _
    · intro honce
      rw [observerEvent, if_pos hsub]
      simp only [hvis, honce, Bool.false_eq_true, if_false, if_true]
      exact cancel_display _ _
  · intro cfg reg σ e honce hsub
    rw [observerEvent, if_pos hsub]
    simp only [honce, if_true]
    intro hmem
    rw [List.mem_filter] at hmem
    simp at hmem
  · intro cfg reg σ e b hsub
    rw [observerEvent, if_neg hsub]
  · have hr : roundSc (0 : ℚ) 0 = 0 :=
      roundSc_nonneg_eq le_rfl (by norm_num) (by norm_num)
    have h1 : toFixedL (0 : ℚ) 0 = ['0'] := by
      rw [toFixedL_d0, hr, if_neg (by norm_num)]
      decide
    rw [formatNumber, formatNumberL, if_neg (by decide), h1]
    decide

/-- Witness for C4 at a concrete exit-visible transition under the default
configuration. -/
theorem counterup_C4_witness :
    lookupL (observerEvent defaultConfig [] 0 false
        ⟨⟨0, [], [], [(0, "123")]⟩, [(0, true)], [0]⟩).anim.display 0 = some "0" :=
  (counterup_C4.1 defaultConfig [] ⟨⟨0, [], [], [(0, "123")]⟩, [(0, true)], [0]⟩ 0
    (by decide) rfl).1 rfl

/-- C10: `parseValue` detects the separator by literal containment but
removes it through a regular expression compiled from the separator
string, so for separators with regex metacharacters the parse differs from
removing only literal separator occurrences: with separator `"."` every
character is stripped and the parse fails where the literal variant
succeeds, and with separator `"0."` the parsed number differs (1 versus
105 on input "105", whose text never contains the literal separator). -/
theorem counterup_C10 :
    (parseValue { defaultConfig with separator := "." } "1.5" = none ∧
      parseValueLiteral { defaultConfig with separator := "." } "1.5"
        = some { number := 15, decimals := 0, hasComma := true }) ∧
    (parseValue { defaultConfig with separator := "0." } "105"
        = some { number := 1, decimals := 0, hasComma := false } ∧
      parseValueLiteral { defaultConfig with separator := "0." } "105"
        = some { number := 105, decimals := 0, hasComma := false } ∧
      ({ number := 1, decimals := 0, hasComma := false } : ParsedData).number ≠
        ({ number := 105, decimals := 0, hasComma := false } : ParsedData).number) := by
  refine ⟨⟨by decide, ?_⟩, ?_, ?_, by norm_num⟩
  · have h15 : valDigits ['1','5'] = 15 := by decide
    norm_num +decide [parseValueLiteral, parseValueLiteralL, containsL, literalStripAll,
      litStripGo, litMatchAt, numberGrammar, parseDecimal, detectDecimals, signSplit,
      mantSplit, expSplit, isDig, h15]
  · have h1 : valDigits ['1'] = 1 := by decide
    norm_num +decide [parseValue, parseValueL, containsL, regexStripAll, stripGo,
      patMatchAt, numberGrammar, parseDecimal, detectDecimals, signSplit, mantSplit,
      expSplit, isDig, h1]
  · have h105 : valDigits ['1','0','5'] = 105 := by decide
    norm_num +decide [parseValueLiteral, parseValueLiteralL, containsL, literalStripAll,
      litStripGo, litMatchAt, numberGrammar, parseDecimal, detectDecimals, signSplit,
      mantSplit, expSplit, isDig, h105]

/-- C1: starting from the empty machine, any sequence of `animate`,
`cancelAnimation` and frame deliveries leaves at most one pending
scheduler request per element; and calling `animate` twice in succession
on a registered element cancels the first session's request before
creating the second, leaving exactly one live session. -/
theorem counterup_C1 :
    (∀ (cfg : Config) (ease : ℚ → ℚ) (reg : List (ℕ × ParsedData)) (ops : List Op) (e : ℕ),
        pendingCount (runOps cfg ease reg ops initAnim) e ≤ 1) ∧
    (∀ (reg : List (ℕ × ParsedData)) (σ : AnimState) (e : ℕ) (p : ParsedData),
        Inv σ → lookupL reg e = some p →
        pendingCount (animate reg e (animate reg e σ)) e = 1 ∧
          lookupL (animate reg e (animate reg e σ)).pending σ.nextId = none) := by
  constructor
  · intro cfg ease reg ops e
    exact pendingCount_le_one (inv_runOps cfg ease reg ops inv_initAnim) e
  · intro reg σ e p h hreg
    exact animate_twice reg e h hreg

/-- Witness for C1: two successive `animate` calls on element 0 of a
one-element registry leave exactly one pending request, and the first
request is gone. -/
theorem counterup_C1_witness :
    pendingCount
        (animate [(0, { number := 1500, decimals := 0, hasComma := true })] 0
          (animate [(0, { number := 1500, decimals := 0, hasComma := true })] 0 initAnim)) 0
      = 1 ∧
      lookupL
        (animate [(0, { number := 1500, decimals := 0, hasComma := true })] 0
          (animate [(0, { number := 1500, decimals := 0, hasComma := true })] 0
            initAnim)).pending initAnim.nextId = none :=
  counterup_C1.2 [(0, { number := 1500, decimals := 0, hasComma := true })] initAnim 0
    { number := 1500, decimals := 0, hasComma := true } inv_initAnim rfl

/-- C3 (the code lacks the state check the claim asserts): element 0 is
registered with target 100, `animate` schedules request 0, and
`cancelAnimation` revokes it — yet when the already-dispatched `step`
closure of the revoked request still runs at timestamp 400, it renders
(writing `"0"`, the formatting of the eased value at a fresh start time)
and even schedules a new frame, resurrecting the session.  The claim that
the frame callback checks the session's state and produces no render side
effect is exactly what this run violates. -/
theorem counterup_C3_bug :
    lookupL (animate [(0, { number := 100, decimals := 0, hasComma := false })] 0
        initAnim).pending 0
      = some { elemId := 0, targetValue := 100, decimals := 0, hasComma := false,
               startTime := none } ∧
    cancelAnimation 0 (animate [(0, { number := 100, decimals := 0, hasComma := false })] 0
        initAnim) = { nextId := 1, pending := [], animations := [], display := [] } ∧
    lookupL (stepRun defaultConfig (fun t => t)
        { elemId := 0, targetValue := 100, decimals := 0, hasComma := false,
          startTime := none } 400
        { nextId := 1, pending := [], animations := [], display := [] }).display 0
      = some "0" ∧
    lookupL (stepRun defaultConfig (fun t => t)
        { elemId := 0, targetValue := 100, decimals := 0, hasComma := false,
          startTime := none } 400
        { nextId := 1, pending := [], animations := [], display := [] }).animations 0
      = some 1 := by
  refine ⟨rfl, rfl, ?_, ?_⟩
  · have hfmt : formatNumber defaultConfig 0 0 false = "0" := by
      have hr : roundSc (0 : ℚ) 0 = 0 :=
        roundSc_nonneg_eq le_rfl (by norm_num) (by norm_num)
      have h1 : toFixedL (0 : ℚ) 0 = ['0'] := by
        rw [toFixedL_d0, hr, if_neg (by norm_num)]
        decide
      rw [formatNumber, formatNumberL, if_neg (by decide), h1]
      decide
    simp only [stepRun, Option.getD_none]
    rw [if_pos (by norm_num [defaultConfig] : min 1 ((400 - 400) / defaultConfig.duration) < (1:ℚ))]
    have hcur : (0 : ℚ) + (min 1 ((400 - 400) / defaultConfig.duration)) * (100 - 0) = 0 := by
      norm_num [defaultConfig]
    rw [hcur, hfmt]
    rfl
  · simp only [stepRun, Option.getD_none]
    rw [if_pos (by norm_num [defaultConfig] : min 1 ((400 - 400) / defaultConfig.duration) < (1:ℚ))]
    rfl

/-- Concrete evaluation: parsing the decorated text `"1,500"` under the
default configuration. -/
lemma parse_1500 :
    parseValue defaultConfig "1,500"
      = some { number := 1500, decimals := 0, hasComma := true } := by
  have h : valDigits ['1','5','0','0'] = 1500 := by decide
  norm_num +decide [parseValue, parseValueL, defaultConfig, containsL, regexStripAll,
    stripGo, patMatchAt, numberGrammar, parseDecimal, detectDecimals, signSplit,
    mantSplit, expSplit, isDig, h]

/-- Concrete evaluation: formatting 1500 with grouping under the default
configuration. -/
lemma fmt_1500 : formatNumber defaultConfig 1500 0 true = "1,500" := by
  have hr : roundSc (1500 : ℚ) 0 = 1500 :=
    roundSc_nonneg_eq (by norm_num) (by norm_num) (by norm_num)
  have h1 : toFixedL (1500 : ℚ) 0 = ['1','5','0','0'] := by
    rw [toFixedL_d0, hr, if_neg (by norm_num)]
    decide
  rw [formatNumber, formatNumberL_default, if_pos rfl, h1]
  decide

/-- C2 counterexample: under the configuration with separator `"9"` and
fixed one decimal, `"0.889"` parses to 0.88, but formatting the parsed
triple produces `"0.9"`, which this very parser no longer accepts (the
separator strip leaves the ungrammatical `"0."`) — the formatted text does
not reproduce the input's numeric value under the given configuration.
Rounding 0.88 to one decimal is not a tie (the scaled value 9.3 is far
from an integer boundary), so the binary floating-point `toFixed` of the
source agrees with the exact-rational rounding at this input. -/
theorem counterup_C2_cex :
    parseValue { defaultConfig with separator := "9", decimals := some 1 } "0.889"
        = some { number := 22 / 25, decimals := 1, hasComma := true } ∧
      formatNumber { defaultConfig with separator := "9", decimals := some 1 }
          (22 / 25) 1 true = "0.9" ∧
      parseValue { defaultConfig with separator := "9", decimals := some 1 }
          (formatNumber { defaultConfig with separator := "9", decimals := some 1 }
            (22 / 25) 1 true) = none := by
  have hr : roundSc (22 / 25 : ℚ) 1 = 9 :=
    roundSc_nonneg_eq (by norm_num) (by norm_num) (by norm_num)
  have hfmt : formatNumber { defaultConfig with separator := "9", decimals := some 1 }
      (22 / 25) 1 true = "0.9" := by
    rw [formatNumber, formatNumberL, if_pos rfl, toFixedL_dpos _ one_ne_zero, hr,
      if_neg (by norm_num)]
    decide
  refine ⟨?_, hfmt, ?_⟩
  · have h0 : valDigits ['0'] = 0 := by decide
    have h88 : valDigits ['8','8'] = 88 := by decide
    norm_num +decide [parseValue, parseValueL, containsL, regexStripAll, stripGo,
      patMatchAt, numberGrammar, parseDecimal, detectDecimals, signSplit, mantSplit,
      expSplit, isDig, h0, h88]
  · rw [hfmt]
    decide

/-- C2 (amended to the default configuration, where the claim's example
lives): every accepted decorated input, when its parsed triple is
formatted and re-parsed, yields exactly the round-half-away-from-zero
rounding of the parsed number at the parsed decimal count — within half of
10^(-decimals) of it; and the claim's concrete example round-trips. -/
theorem counterup_C2 :
    (∀ (x : String) (p : ParsedData), parseValue defaultConfig x = some p →
        ∃ q : ParsedData,
          parseValue defaultConfig
              (formatNumber defaultConfig p.number p.decimals p.hasComma) = some q ∧
            q.number = roundToDec p.decimals p.number ∧
            |q.number - p.number| ≤ 1 / (2 * 10 ^ p.decimals)) ∧
    parseValue defaultConfig "1,500"
      = some { number := 1500, decimals := 0, hasComma := true } ∧
    formatNumber defaultConfig 1500 0 true = "1,500" := by
  refine ⟨?_, parse_1500, fmt_1500⟩
  intro x p hx
  refine ⟨{ number := roundToDec p.decimals p.number
            decimals := detectDecimals (toFixedL p.number p.decimals)
            hasComma := containsL [',']
              (formatNumberL defaultConfig p.number p.decimals p.hasComma) },
    format_parse_default p.number p.decimals p.hasComma, rfl,
    roundToDec_bound p.decimals p.number⟩

/-- Witness for C2 on the concrete input `"1,500"`. -/
theorem counterup_C2_witness :
    ∃ q : ParsedData,
      parseValue defaultConfig (formatNumber defaultConfig 1500 0 true) = some q ∧
        q.number = roundToDec 0 1500 ∧
        |q.number - 1500| ≤ 1 / (2 * 10 ^ (0 : ℕ)) :=
  counterup_C2.1 "1,500" { number := 1500, decimals := 0, hasComma := true }
    counterup_C2.2.1

/-- C8: `formatNumber` rounds half away from zero to the requested
fractional digits (the value denoted by the `toFixed` output is exactly
that rounding, it is within half an ulp, and ties move away from zero),
the group separators are only inserted — removing the commas from the
grouped output gives the ungrouped output, leaving the fraction part
untouched — the result is wrapped as `prefix + body + suffix`, and
concretely `format(1234.5, 1, true, defaultConfig) = "1,234.5"`. -/
theorem counterup_C8 :
    formatNumber defaultConfig (2469 / 2) 1 true = "1,234.5" ∧
    (∀ (n : ℚ) (d : ℕ),
        parseDecimal (toFixedL n d) = roundToDec d n ∧
          |roundToDec d n - n| ≤ 1 / (2 * 10 ^ d) ∧
          (|roundToDec d n - n| = 1 / (2 * 10 ^ d) → |n| ≤ |roundToDec d n|)) ∧
    (∀ (n : ℚ) (d : ℕ),
        (formatNumberL defaultConfig n d true).filter (· ≠ ',')
          = formatNumberL defaultConfig n d false) ∧
    (∀ (cfg : Config) (n : ℚ) (d : ℕ) (c : Bool),
        formatNumberL cfg n d c
          = cfg.prefixText.data
              ++ formatNumberL { cfg with prefixText := "", suffixText := "" } n d c
              ++ cfg.suffixText.data) := by
  refine ⟨?_, ?_, ?_, ?_⟩
  · have hr : roundSc (2469 / 2 : ℚ) 1 = 12345 :=
      roundSc_nonneg_eq (by norm_num) (by norm_num) (by norm_num)
    have h1 : toFixedL (2469 / 2 : ℚ) 1 = ['1','2','3','4','.','5'] := by
      rw [toFixedL_dpos _ one_ne_zero, hr, if_neg (by norm_num)]
      decide
    rw [formatNumber, formatNumberL_default, if_pos rfl, h1]
    decide
  · intro n d
    exact ⟨parseDecimal_toFixedL n d, roundToDec_bound d n, roundToDec_tie d n⟩
  · intro n d
    have h2 : formatNumberL defaultConfig n d false = toFixedL n d := by
      rw [formatNumberL_default, if_neg (by simp)]
    calc (formatNumberL defaultConfig n d true).filter (· ≠ ',')
        = regexStripAll [','] (formatNumberL defaultConfig n d true) :=
          (regexStrip_single (by decide) _).symm
      _ = toFixedL n d := strip_format_default n d true
      _ = formatNumberL defaultConfig n d false := h2.symm
  · intro cfg n d c
    simp [formatNumberL]

/-- Witness for C8's rounding conjunct at `n = 1234.5`, `d = 1`. -/
theorem counterup_C8_witness :
    parseDecimal (toFixedL (2469 / 2 : ℚ) 1) = roundToDec 1 (2469 / 2) ∧
      |roundToDec 1 (2469 / 2 : ℚ) - 2469 / 2| ≤ 1 / (2 * 10 ^ (1 : ℕ)) :=
  ⟨(counterup_C8.2.1 (2469 / 2) 1).1, (counterup_C8.2.1 (2469 / 2) 1).2.1⟩

/-- C5: a frame delivered at or past `startTime + duration` clamps the
progress to 1 and renders the formatting of the exact stored target (not
the eased interpolation), releasing the session; and the concrete
`replay()` run on a target of 1,500 — baseline `"0"` write, `animate`,
first frame at t = 0, completing frame at t = 800 — ends with exactly
`"1,500"` rendered and no live session. -/
theorem counterup_C5 :
    (∀ (cfg : Config) (ease : ℚ → ℚ) (tok : ℕ) (ts st : ℚ) (σ : AnimState) (fd : FrameData),
        lookupL σ.pending tok = some fd → fd.startTime = some st →
        0 < cfg.duration → st + cfg.duration ≤ ts →
        lookupL (fireFrame cfg ease tok ts σ).display fd.elemId
            = some (formatNumber cfg fd.targetValue fd.decimals fd.hasComma) ∧
          lookupL (fireFrame cfg ease tok ts σ).animations fd.elemId = none) ∧
    (lookupL (fireFrame defaultConfig (fun t => t) 1 800
          (fireFrame defaultConfig (fun t => t) 0 0
            (replay [(0, { number := 1500, decimals := 0, hasComma := true })] [0]
              initAnim))).display 0 = some "1,500" ∧
      lookupL (fireFrame defaultConfig (fun t => t) 1 800
          (fireFrame defaultConfig (fun t => t) 0 0
            (replay [(0, { number := 1500, decimals := 0, hasComma := true })] [0]
              initAnim))).animations 0 = none) := by
  constructor
  · intro cfg ease tok ts st σ fd hfd hst hdur hts
    exact fire_complete cfg ease tok ts st hfd hst hdur hts
  · have hσr : replay [(0, { number := 1500, decimals := 0, hasComma := true })] [0] initAnim
        = ⟨1, [(0, { elemId := 0, targetValue := 1500, decimals := 0, hasComma := true,
                     startTime := none })], [(0, 0)], [(0, "0")]⟩ := rfl
    have hp1 : lookupL (fireFrame defaultConfig (fun t : ℚ => t) 0 0
        (⟨1, [(0, { elemId := 0, targetValue := 1500, decimals := 0, hasComma := true,
                    startTime := none })], [(0, 0)], [(0, "0")]⟩ : AnimState)).pending 1
        = some { elemId := 0, targetValue := 1500, decimals := 0, hasComma := true,
                 startTime := some 0 } := by
      have hl : lookupL ([(0, { elemId := 0, targetValue := 1500, decimals := 0,
                                hasComma := true, startTime := none })] :
            List (ℕ × FrameData)) 0
          = some { elemId := 0, targetValue := 1500, decimals := 0, hasComma := true,
                   startTime := none } := rfl
      rw [fireFrame, hl]
      simp only [stepRun, Option.getD_none]
      rw [if_pos (by norm_num [defaultConfig] :
        min 1 (((0 : ℚ) - 0) / defaultConfig.duration) < 1)]
      rfl
    rw [hσr]
    have hc := fire_complete defaultConfig (fun t : ℚ => t) 1 800 0 hp1 rfl
      (by norm_num [defaultConfig]) (by norm_num [defaultConfig])
    refine ⟨?_, ?_⟩
    · rw [hc.1]
      rw [fmt_1500]
    · exact hc.2

/-- Witness for C5's completion conjunct on a concrete pending frame. -/
theorem counterup_C5_witness :
    lookupL (fireFrame defaultConfig (fun t => t) 0 800
        (⟨1, [(0, { elemId := 0, targetValue := 42, decimals := 0, hasComma := false,
                    startTime := some 0 })], [(0, 0)], []⟩ : AnimState)).display 0
        = some (formatNumber defaultConfig 42 0 false) ∧
      lookupL (fireFrame defaultConfig (fun t => t) 0 800
        (⟨1, [(0, { elemId := 0, targetValue := 42, decimals := 0, hasComma := false,
                    startTime := some 0 })], [(0, 0)], []⟩ : AnimState)).animations 0
        = none :=
  counterup_C5.1 defaultConfig (fun t => t) 0 800 0 _
    { elemId := 0, targetValue := 42, decimals := 0, hasComma := false, startTime := some 0 }
    rfl rfl (by norm_num [defaultConfig]) (by norm_num [defaultConfig])

/-- C7: an easing name that is not a key of the easing table resolves to
the `easeOutExpo` fallback rather than failing, and under the
configuration `{easing := "bogus"}` the animation still completes: the
completing frame renders the formatting of the exact target, whatever
easing function the closure captured. -/
theorem counterup_C7 :
    resolveEasing "bogus" = easeOutExpo ∧
    (∀ (ease : ℚ → ℚ) (tok : ℕ) (ts st : ℚ) (σ : AnimState) (fd : FrameData),
        lookupL σ.pending tok = some fd → fd.startTime = some st →
        st + ({ defaultConfig with easing := "bogus" } : Config).duration ≤ ts →
        lookupL (fireFrame { defaultConfig with easing := "bogus" } ease tok ts σ).display
            fd.elemId
          = some (formatNumber { defaultConfig with easing := "bogus" }
              fd.targetValue fd.decimals fd.hasComma) ∧
          lookupL (fireFrame { defaultConfig with easing := "bogus" } ease tok ts σ).animations
            fd.elemId = none) := by
  refine ⟨rfl, ?_⟩
  intro ease tok ts st σ fd hfd hst hts
  exact fire_complete _ ease tok ts st hfd hst (by norm_num [defaultConfig]) hts

/-- Witness for C7 with a deliberately strange easing closure. -/
theorem counterup_C7_witness :
    lookupL (fireFrame { defaultConfig with easing := "bogus" } (fun t => t + 7) 0 800
        (⟨1, [(0, { elemId := 0, targetValue := 42, decimals := 0, hasComma := false,
                    startTime := some 0 })], [(0, 0)], []⟩ : AnimState)).display 0
        = some (formatNumber { defaultConfig with easing := "bogus" } 42 0 false) ∧
      lookupL (fireFrame { defaultConfig with easing := "bogus" } (fun t => t + 7) 0 800
        (⟨1, [(0, { elemId := 0, targetValue := 42, decimals := 0, hasComma := false,
                    startTime := some 0 })], [(0, 0)], []⟩ : AnimState)).animations 0
        = none :=
  counterup_C7.2 (fun t => t + 7) 0 800 0 _
    { elemId := 0, targetValue := 42, decimals := 0, hasComma := false, startTime := some 0 }
    rfl rfl (by norm_num [defaultConfig])

end CounterUp
